import Mathlib

/-!
cloudtrail-tattletail: rule evaluation and alert dispatch.

A shallow embedding of `cloudtrail_tattletail_main.go` (and `config/config.go`).

* Go's `interface{}` values coming out of `encoding/json` and `gojq` are the
  trees of `Value`; a record (`map[string]interface{}`) is the field list of
  an object.
* The libraries the program calls (`gojq`, `time`, `encoding/json`) are the
  fields of `Lib`; every theorem about the program is stated for an arbitrary
  `Lib`.  `GoTime` further down is a concrete model of the RFC 3339 layout of
  Go's `time` package, and `MiniJq` a small evaluator for the jq fragment
  that the concrete runs use.
* A Go panic (a failed type assertion `v.(string)`, `Time.In(nil)`) is the
  `panicked` outcome.
* Log lines are not part of the model, except the errors logged for a failed
  `Send` and the two counters of `processing_complete`.
-/

namespace Tattletail

/-! ## Values -/

/-- Go `interface{}` values as decoded by `encoding/json` / produced by `gojq`:
`nil`, `bool`, a number, `string`, `[]interface{}`, `map[string]interface{}`. -/
inductive Value where
  | null
  | bool (b : Bool)
  | num (n : Int)
  | str (s : String)
  | arr (xs : List Value)
  | obj (kvs : List (String × Value))
  deriving Repr, Inhabited

mutual

/-- Decidable equality of values. -/
def Value.decEq : (a b : Value) → Decidable (a = b)
  | Value.null, Value.null => isTrue rfl
  | Value.null, Value.bool _ => isFalse (fun e => Value.noConfusion e)
  | Value.null, Value.num _ => isFalse (fun e => Value.noConfusion e)
  | Value.null, Value.str _ => isFalse (fun e => Value.noConfusion e)
  | Value.null, Value.arr _ => isFalse (fun e => Value.noConfusion e)
  | Value.null, Value.obj _ => isFalse (fun e => Value.noConfusion e)
  | Value.bool _, Value.null => isFalse (fun e => Value.noConfusion e)
  | Value.bool x, Value.bool y =>
    if h : x = y then isTrue (congrArg Value.bool h)
    else isFalse (fun e => h (Value.bool.inj e))
  | Value.bool _, Value.num _ => isFalse (fun e => Value.noConfusion e)
  | Value.bool _, Value.str _ => isFalse (fun e => Value.noConfusion e)
  | Value.bool _, Value.arr _ => isFalse (fun e => Value.noConfusion e)
  | Value.bool _, Value.obj _ => isFalse (fun e => Value.noConfusion e)
  | Value.num _, Value.null => isFalse (fun e => Value.noConfusion e)
  | Value.num _, Value.bool _ => isFalse (fun e => Value.noConfusion e)
  | Value.num x, Value.num y =>
    if h : x = y then isTrue (congrArg Value.num h)
    else isFalse (fun e => h (Value.num.inj e))
  | Value.num _, Value.str _ => isFalse (fun e => Value.noConfusion e)
  | Value.num _, Value.arr _ => isFalse (fun e => Value.noConfusion e)
  | Value.num _, Value.obj _ => isFalse (fun e => Value.noConfusion e)
  | Value.str _, Value.null => isFalse (fun e => Value.noConfusion e)
  | Value.str _, Value.bool _ => isFalse (fun e => Value.noConfusion e)
  | Value.str _, Value.num _ => isFalse (fun e => Value.noConfusion e)
  | Value.str x, Value.str y =>
    if h : x = y then isTrue (congrArg Value.str h)
    else isFalse (fun e => h (Value.str.inj e))
  | Value.str _, Value.arr _ => isFalse (fun e => Value.noConfusion e)
  | Value.str _, Value.obj _ => isFalse (fun e => Value.noConfusion e)
  | Value.arr _, Value.null => isFalse (fun e => Value.noConfusion e)
  | Value.arr _, Value.bool _ => isFalse (fun e => Value.noConfusion e)
  | Value.arr _, Value.num _ => isFalse (fun e => Value.noConfusion e)
  | Value.arr _, Value.str _ => isFalse (fun e => Value.noConfusion e)
  | Value.arr x, Value.arr y =>
    match Value.decEqList x y with
    | isTrue h => isTrue (congrArg Value.arr h)
    | isFalse h => isFalse (fun e => h (Value.arr.inj e))
  | Value.arr _, Value.obj _ => isFalse (fun e => Value.noConfusion e)
  | Value.obj _, Value.null => isFalse (fun e => Value.noConfusion e)
  | Value.obj _, Value.bool _ => isFalse (fun e => Value.noConfusion e)
  | Value.obj _, Value.num _ => isFalse (fun e => Value.noConfusion e)
  | Value.obj _, Value.str _ => isFalse (fun e => Value.noConfusion e)
  | Value.obj _, Value.arr _ => isFalse (fun e => Value.noConfusion e)
  | Value.obj x, Value.obj y =>
    match Value.decEqFields x y with
    | isTrue h => isTrue (congrArg Value.obj h)
    | isFalse h => isFalse (fun e => h (Value.obj.inj e))

/-- Decidable equality of lists of values. -/
def Value.decEqList : (xs ys : List Value) → Decidable (xs = ys)
  | [], [] => isTrue rfl
  | [], _ :: _ => isFalse (fun e => List.noConfusion e)
  | _ :: _, [] => isFalse (fun e => List.noConfusion e)
  | x :: xs, y :: ys =>
    match Value.decEq x y, Value.decEqList xs ys with
    | isTrue h1, isTrue h2 => isTrue (congrArg₂ List.cons h1 h2)
    | isFalse h1, _ => isFalse (fun e => h1 (List.cons.inj e).1)
    | _, isFalse h2 => isFalse (fun e => h2 (List.cons.inj e).2)

/-- Decidable equality of field lists. -/
def Value.decEqFields : (xs ys : List (String × Value)) → Decidable (xs = ys)
  | [], [] => isTrue rfl
  | [], _ :: _ => isFalse (fun e => List.noConfusion e)
  | _ :: _, [] => isFalse (fun e => List.noConfusion e)
  | (k, x) :: xs, (l, y) :: ys =>
    if hk : k = l then
      match Value.decEq x y, Value.decEqFields xs ys with
      | isTrue h1, isTrue h2 => isTrue (by rw [hk, h1, h2])
      | isFalse h1, _ => isFalse (fun e => h1 (Prod.mk.inj (List.cons.inj e).1).2)
      | _, isFalse h2 => isFalse (fun e => h2 (List.cons.inj e).2)
    else isFalse (fun e => hk (Prod.mk.inj (List.cons.inj e).1).1)

end

instance : DecidableEq Value := Value.decEq

/-- A record of the audit log: Go's `map[string]interface{}`. -/
abbrev Record := List (String × Value)

/-- One value handed out by `gojq.Iter.Next`: a result, or an `error` value. -/
inductive Item where
  | val (v : Value)
  | err (msg : String)
  deriving Repr, Inhabited, DecidableEq

/-- The library calls made by the program, for a type `Q` of compiled queries
(`*gojq.Query`), a type `L` of locations (`*time.Location`, non-nil) and a
type `T` of instants (`time.Time`). -/
structure Lib (Q L T : Type) where
  /-- The call `gojq.Parse(src)`; `none` is a parse error. -/
  gojqParse : String → Option Q
  /-- The call `q.Run(v)`: the results that successive `iter.Next()` calls hand out. -/
  run : Q → Value → List Item
  /-- The call `time.LoadLocation(name)`; `none` is `(nil, err)`. -/
  loadLocation : String → Option L
  /-- The call `time.Parse(time.RFC3339, s)`; `none` is a parse error. -/
  timeParse : String → Option T
  /-- The expression `t.In(loc).Format(time.RFC3339)` for a non-nil `loc`. -/
  inFormat : T → L → String
  /-- The call `json.Unmarshal([]byte(s), &obj)` for `obj interface{}`; `none` is an error. -/
  jsonUnmarshal : String → Option Value
  /-- The call `json.Unmarshal([]byte(s), &rec)` for `rec map[string]interface{}`. -/
  jsonUnmarshalRecord : String → Except String Record

/-! ## Configuration (`config/config.go`) -/

namespace config

/-- The struct `config.Rule`. -/
structure Rule where
  Name : String
  JQMatch : String
  ResultDataType : String
  Destinations : List String
  Desc : String
  deriving Repr, DecidableEq

/-- The struct `config.Destination`. -/
structure Destination where
  ID : String
  /-- The field `Type` of the source (a reserved word here). -/
  Type_ : String
  SNSARN : String
  WebhookURL : String
  ToEmails : List String
  FromEmail : String
  deriving Repr, DecidableEq

/-- The struct `config.General`. -/
structure General where
  TimeZone : String
  Keys : List String
  Version : String
  deriving Repr, DecidableEq

/-- The struct `config.Config`. -/
structure Config where
  Rules : List Rule
  Destinations : List Destination
  General : General
  deriving Repr, DecidableEq

end config

/-! ## Server state -/

/-- The struct `Rule` of `package main`: a compiled rule.  `D` is the type of
destination handles (`destination.Destination`).  The field `transform` of the
source is never read nor written and is left out. -/
structure Rule (Q D : Type) where
  name : String
  desc : String
  query : Q
  datatype : String
  dests : List D

/-- The struct `General` of `package main`. -/
structure General where
  timezone : String
  keys : List String
  deriving Repr, DecidableEq

/-- The struct `server`, without the loader table (a parameter of `loadConfig`). -/
structure server (Q D : Type) where
  rules : List (Rule Q D)
  general : General

/-! ## `Rule.Match` -/

/-- The method `(*Rule).Match`: run the query on the record and classify the
first value handed out by the iterator. -/
def Rule.Match {Q L T D : Type} (lib : Lib Q L T) (r : Rule Q D) (record : Record) :
    Bool × Value :=
  match lib.run r.query (Value.obj record) with
  | [] => (false, Value.null)                         -- !ok
  | Item.err _ :: _ => (false, Value.str "")          -- v.(error)
  | Item.val Value.null :: _ => (false, Value.null)   -- v == nil
  | Item.val (Value.bool bval) :: _ => (bval, Value.bool bval)
  | Item.val v :: _ => (true, v)

/-! ## `modifyRecord` -/

/-- How a call ends: it returns a value, or the goroutine panics (a failed
single-value type assertion, or `Time.In` on a nil location). -/
inductive Outcome (α : Type) where
  | returned (a : α)
  | panicked
  deriving Repr, DecidableEq

/-- The `for _, key := range s.general.keys` loop of `modifyRecord`, for the
location `tz` computed before it (`none` is the nil `*time.Location` that a
failed `time.LoadLocation` leaves).  Every `break` of the source ends the loop
and so returns the current `rec`. -/
def modifyRecord.loop {Q L T : Type} (lib : Lib Q L T) (tz : Option L) :
    List String → Record → Outcome Record
  | [], record => Outcome.returned record
  | key :: keys, record =>
    match lib.gojqParse key with
    | none => Outcome.returned record                         -- record_parse_err: break
    | some q =>
      match (lib.run q (Value.obj record)).head? with
      | none => Outcome.returned record                       -- !ok: break
      | some (Item.val Value.null) => Outcome.returned record -- v == nil: break
      | some (Item.val (Value.str v)) =>                      -- v.(string)
        match lib.timeParse v with
        | none => Outcome.returned record                     -- time_parse_err: break
        | some parsedTime =>
          match tz with
          | none => Outcome.panicked                          -- parsedTime.In(nil)
          | some loc =>
            let tzParsedTime := lib.inFormat parsedTime loc
            match lib.gojqParse (key ++ " |= \"" ++ tzParsedTime ++ "\"") with
            | none => Outcome.returned record                 -- record_parse_err: break
            | some q2 =>
              match (lib.run q2 (Value.obj record)).head? with
              | none => Outcome.returned record               -- !ok: break
              | some (Item.val Value.null) => Outcome.returned record  -- v == nil: break
              | some (Item.val (Value.obj m)) => modifyRecord.loop lib tz keys m
              | some _ => Outcome.panicked                    -- v.(map[string]interface{})
      | some _ => Outcome.panicked                            -- v.(string) on a non-string

/-- The location that `modifyRecord` computes before its loop:
`time.LoadLocation("")`, replaced by `time.LoadLocation(s.general.timezone)`
(nil when that fails) if the timezone is set. -/
def modifyRecord.tz {Q L T : Type} (lib : Lib Q L T) (general : General) : Option L :=
  if general.timezone ≠ "" then lib.loadLocation general.timezone
  else lib.loadLocation ""

/-- The method `(*server).modifyRecord`. -/
def modifyRecord {Q L T D : Type} (lib : Lib Q L T) (s : server Q D) (record : Record) :
    Outcome Record :=
  modifyRecord.loop lib (modifyRecord.tz lib s.general) s.general.keys record

/-! ## The batch loop of `handleRecordS3` and `handleRecordCWLogs` -/

/-- One call `dest.Send(rule.name, rule.desc, rec, obj)`. -/
structure SendCall (D : Type) where
  dest : D
  name : String
  desc : String
  record : Record
  obj : Value
  deriving Repr, DecidableEq

/-- What a handler has done so far: the `Send` calls made, in order, the
errors it logged as `publish_alert_err`, and the local `matchCount`. -/
structure Run (D : Type) where
  sends : List (SendCall D)
  sendErrs : List String
  matchCount : Nat
  deriving Repr, DecidableEq

/-- The state at the start of a handler. -/
def Run.init {D : Type} : Run D := { sends := [], sendErrs := [], matchCount := 0 }

/-- The environment's answer to the `n`-th `Send` call of an invocation:
`none` is a nil error. -/
abbrev SendResult (D : Type) := Nat → SendCall D → Option String

/-- The payload lines of the destination loop:
`obj := resultData; if rule.datatype == "jsonStr" { err = json.Unmarshal([]byte(resultData.(string)), &obj); if err != nil { obj = resultData } }`. -/
def shapePayload {Q L T : Type} (lib : Lib Q L T) (datatype : String) (resultData : Value) :
    Outcome Value :=
  if datatype = "jsonStr" then
    match resultData with
    | Value.str str =>
      match lib.jsonUnmarshal str with
      | some obj => Outcome.returned obj
      | none => Outcome.returned resultData            -- json_unmarshal_err
    | _ => Outcome.panicked                            -- resultData.(string)
  else Outcome.returned resultData

/-- The loop `for _, dest := range rule.dests` of the handlers. -/
def destLoop {Q L T D : Type} (lib : Lib Q L T) (send : SendResult D) (rule : Rule Q D)
    (record : Record) (resultData : Value) : List D → Run D → Run D × Outcome Unit
  | [], st => (st, Outcome.returned ())
  | dest :: dests, st =>
    match shapePayload lib rule.datatype resultData with
    | Outcome.panicked => (st, Outcome.panicked)
    | Outcome.returned obj =>
      let call : SendCall D :=
        { dest := dest, name := rule.name, desc := rule.desc, record := record, obj := obj }
      match send st.sends.length call with
      | none => destLoop lib send rule record resultData dests
          { st with sends := st.sends ++ [call] }
      | some err => destLoop lib send rule record resultData dests
          { st with sends := st.sends ++ [call], sendErrs := st.sendErrs ++ [err] }

/-- The loop `for _, rule := range s.rules` of the handlers, on a normalized record. -/
def ruleLoop {Q L T D : Type} (lib : Lib Q L T) (send : SendResult D) (record : Record) :
    List (Rule Q D) → Run D → Run D × Outcome Unit
  | [], st => (st, Outcome.returned ())
  | rule :: rules, st =>
    match Rule.Match lib rule record with
    | (true, resultData) =>
      match destLoop lib send rule record resultData rule.dests
          { st with matchCount := st.matchCount + 1 } with
      | (st2, Outcome.returned _) => ruleLoop lib send record rules st2
      | (st2, Outcome.panicked) => (st2, Outcome.panicked)
    | (false, _) => ruleLoop lib send record rules st

/-- The body of the record loop, the same text in both handlers:
`rec = s.modifyRecord(lgr, rec)` followed by the loop over the rules. -/
def processRecord {Q L T D : Type} (lib : Lib Q L T) (send : SendResult D) (s : server Q D)
    (record : Record) (st : Run D) : Run D × Outcome Unit :=
  match modifyRecord lib s record with
  | Outcome.panicked => (st, Outcome.panicked)
  | Outcome.returned record2 => ruleLoop lib send record2 s.rules st

/-- The two counters of the `processing_complete` log line. -/
structure Counters where
  record_count : Nat
  match_count : Nat
  deriving Repr, DecidableEq

/-- The loop `for _, rec := range doc.Records` of `handleRecordS3`. -/
def recordLoopS3 {Q L T D : Type} (lib : Lib Q L T) (send : SendResult D) (s : server Q D) :
    List Record → Run D → Run D × Outcome Unit
  | [], st => (st, Outcome.returned ())
  | record :: records, st =>
    match processRecord lib send s record st with
    | (st2, Outcome.returned _) => recordLoopS3 lib send s records st2
    | (st2, Outcome.panicked) => (st2, Outcome.panicked)

/-- The method `(*server).handleRecordS3`, from the point where the object has
been fetched, inflated and decoded: `doc` is `doc.Records`, or the error of one
of those steps.  The result is the effects of the call together with how it
ends: `returned (Except.ok c)` logs `processing_complete` with the counters `c`
and returns nil, `returned (Except.error e)` returns the error `e`. -/
def handleRecordS3 {Q L T D : Type} (lib : Lib Q L T) (send : SendResult D) (s : server Q D)
    (doc : Except String (List Record)) : Run D × Outcome (Except String Counters) :=
  match doc with
  | Except.error err => (Run.init, Outcome.returned (Except.error err))
  | Except.ok records =>
    match recordLoopS3 lib send s records Run.init with
    | (st, Outcome.panicked) => (st, Outcome.panicked)
    | (st, Outcome.returned _) =>
      (st, Outcome.returned
        (Except.ok { record_count := records.length, match_count := st.matchCount }))

/-- The loop `for _, logEvent := range data.LogEvents` of `handleRecordCWLogs`:
each message is decoded right before it is processed, and a decoding error
returns from the handler. -/
def recordLoopCWLogs {Q L T D : Type} (lib : Lib Q L T) (send : SendResult D)
    (s : server Q D) : List String → Run D → Run D × Outcome (Option String)
  | [], st => (st, Outcome.returned none)
  | message :: messages, st =>
    match lib.jsonUnmarshalRecord message with
    | Except.error err => (st, Outcome.returned (some err))   -- decode_json_err
    | Except.ok record =>
      match processRecord lib send s record st with
      | (st2, Outcome.returned _) => recordLoopCWLogs lib send s messages st2
      | (st2, Outcome.panicked) => (st2, Outcome.panicked)

/-- The method `(*server).handleRecordCWLogs`: `data` is the result of
`rawdata.Parse()`, the messages of `data.LogEvents` or the error. -/
def handleRecordCWLogs {Q L T D : Type} (lib : Lib Q L T) (send : SendResult D)
    (s : server Q D) (data : Except String (List String)) :
    Run D × Outcome (Except String Counters) :=
  match data with
  | Except.error err => (Run.init, Outcome.returned (Except.error err))
  | Except.ok messages =>
    match recordLoopCWLogs lib send s messages Run.init with
    | (st, Outcome.panicked) => (st, Outcome.panicked)
    | (st, Outcome.returned (some err)) => (st, Outcome.returned (Except.error err))
    | (st, Outcome.returned none) =>
      (st, Outcome.returned
        (Except.ok { record_count := messages.length, match_count := st.matchCount }))

/-! ## `loadConfig` -/

/-- The interface `destination.Loader`, reduced to its method `Load`; the type
a loader is registered for is its key in the table `s.loaders`. -/
structure Loader (D : Type) where
  Load : config.Destination → Except String D

/-- The errors that `loadConfig` returns once the document has been decoded. -/
inductive ConfigError where
  /-- The error `invalid destination type %q for destination %q`. -/
  | invalidDestinationType (type id : String)
  /-- The error returned by `loader.Load`. -/
  | invalidDestinationConfig (err : String)
  /-- The error `duplicate destinations with same id: %q`. -/
  | duplicateDestination (id : String)
  /-- The error `jq_match not defined for rule name=%q idx=%d`. -/
  | jqMatchNotDefined (name : String) (idx : Nat)
  /-- The error `parse jq_match err for rule name=%q idx=%d query=%q err=%w`. -/
  | parseJqMatch (name : String) (idx : Nat) (query : String)
  /-- The error `unknown destination %q for rule name=%q idx=%d`. -/
  | unknownDestination (destName name : String) (idx : Nat)
  deriving Repr, DecidableEq

/-- The loop `for _, dest := range conf.Destinations` of `loadConfig`.  The Go
map `destinations` is an association list searched with `List.lookup`; `ID`
is the method `ID()` of a destination handle. -/
def loadDestinations {D : Type} (loaders : String → Option (Loader D)) (ID : D → String) :
    List config.Destination → List (String × D) → Except ConfigError (List (String × D))
  | [], destinations => Except.ok destinations
  | dest :: rest, destinations =>
    match loaders dest.Type_ with
    | none => Except.error (ConfigError.invalidDestinationType dest.Type_ dest.ID)
    | some loader =>
      match loader.Load dest with
      | Except.error err => Except.error (ConfigError.invalidDestinationConfig err)
      | Except.ok d =>
        if (destinations.lookup (ID d)).isSome then
          Except.error (ConfigError.duplicateDestination (ID d))
        else loadDestinations loaders ID rest ((ID d, d) :: destinations)

/-- The loop `for _, destName := range rule.Destinations`, appending to `r.dests`. -/
def resolveDests {D : Type} (destinations : List (String × D)) :
    List String → List D → Except String (List D)
  | [], dests => Except.ok dests
  | destName :: rest, dests =>
    match destinations.lookup destName with
    | none => Except.error destName                       -- dest == nil
    | some dest => resolveDests destinations rest (dests ++ [dest])

/-- The body of the loop `for i, rule := range conf.Rules`: the compiled rule,
or the error returned. -/
def compileRule {Q L T D : Type} (lib : Lib Q L T) (destinations : List (String × D))
    (i : Nat) (rule : config.Rule) : Except ConfigError (Rule Q D) :=
  if rule.JQMatch = "" then
    Except.error (ConfigError.jqMatchNotDefined rule.Name i)
  else
    match lib.gojqParse rule.JQMatch with
    | none => Except.error (ConfigError.parseJqMatch rule.Name i rule.JQMatch)
    | some q =>
      let datatype := if rule.ResultDataType ≠ "" then rule.ResultDataType else "jsonObj"
      match resolveDests destinations rule.Destinations [] with
      | Except.error destName =>
        Except.error (ConfigError.unknownDestination destName rule.Name i)
      | Except.ok dests =>
        Except.ok { name := rule.Name, desc := rule.Desc, query := q,
                    datatype := datatype, dests := dests }

/-- The loop `for i, rule := range conf.Rules`, appending to `s.rules`: the
rules compiled so far and the error that stopped the loop, if any. -/
def loadRules {Q L T D : Type} (lib : Lib Q L T) (destinations : List (String × D)) :
    Nat → List config.Rule → List (Rule Q D) → List (Rule Q D) × Option ConfigError
  | _, [], rules => (rules, none)
  | i, rule :: rest, rules =>
    match compileRule lib destinations i rule with
    | Except.error err => (rules, some err)
    | Except.ok r => loadRules lib destinations (i + 1) rest (rules ++ [r])

/-- The method `(*server).loadConfig`, from the point where the document has
been read and decoded into `conf`: the new state of the server and the error
returned (`none` is nil). -/
def loadConfig {Q L T D : Type} (lib : Lib Q L T) (loaders : String → Option (Loader D))
    (ID : D → String) (s : server Q D) (conf : config.Config) :
    server Q D × Option ConfigError :=
  let s1 : server Q D :=
    { s with general := { timezone := conf.General.TimeZone, keys := conf.General.Keys } }
  match loadDestinations loaders ID conf.Destinations [] with
  | Except.error err => (s1, some err)
  | Except.ok destinations =>
    match loadRules lib destinations 0 conf.Rules [] with
    | (rules, err) => ({ s1 with rules := rules }, err)

/-! ## The RFC 3339 layout of Go's `time` package

The program calls `time.Parse(time.RFC3339, v)` and
`parsedTime.In(tz).Format(time.RFC3339)`.  `GoTime` models the two calls on
the proleptic Gregorian calendar, with the year/day cascade of Go's
`daysSinceEpoch` and `absDate`, the lenient reading rules of `time.Parse` (a
fractional second is accepted although the layout has none) and the
`Z07:00` zone element. -/

namespace GoTime

/-- An instant, Go's `time.Time` without its location: the seconds elapsed
since 1970-01-01T00:00:00Z and the nanoseconds within that second. -/
structure Time where
  sec : Int
  nsec : Nat
  deriving Repr, DecidableEq

/-- A non-nil `*time.Location`: its name and its `lookup`, the offset in
seconds east of UTC in force at a Unix time. -/
structure Location where
  name : String
  offset : Int → Int

/-- The location `time.UTC`. -/
def UTC : Location := { name := "UTC", offset := fun _ => 0 }

/-- The function `time.FixedZone`. -/
def FixedZone (name : String) (offset : Int) : Location :=
  { name := name, offset := fun _ => offset }

/-- The function `isLeap` of package `time`. -/
def isLeap (year : Int) : Bool :=
  decide (year % 4 = 0 ∧ (year % 100 ≠ 0 ∨ year % 400 = 0))

/-- The table `daysBefore` of package `time`, indexed by the month (1 to 13):
the days of a common year that precede the month. -/
def daysBefore (month : Int) : Int :=
  if month ≤ 1 then 0 else if month = 2 then 31 else if month = 3 then 59
  else if month = 4 then 90 else if month = 5 then 120 else if month = 6 then 151
  else if month = 7 then 181 else if month = 8 then 212 else if month = 9 then 243
  else if month = 10 then 273 else if month = 11 then 304 else if month = 12 then 334
  else 365

/-- The function `daysIn` of package `time`. -/
def daysIn (month year : Int) : Int :=
  if month = 2 ∧ isLeap year = true then 29 else daysBefore (month + 1) - daysBefore month

/-- The function `daysSinceEpoch` of package `time`, counted from 0001-01-01:
400-year, 100-year and 4-year cycles, then single years. -/
def daysSinceEpoch (year : Int) : Int :=
  let y := year - 1
  let n400 := y / 400
  let y1 := y % 400
  let n100 := y1 / 100
  let y2 := y1 % 100
  let n4 := y2 / 4
  let y3 := y2 % 4
  146097 * n400 + 36524 * n100 + 1461 * n4 + 365 * y3

/-- The days from 1970-01-01 to a civil date, as `time.Date` computes them. -/
def daysFromCivil (year month day : Int) : Int :=
  daysSinceEpoch year + daysBefore month
    + (if isLeap year = true ∧ 3 ≤ month then 1 else 0) + (day - 1) - 719162

/-- The year and the day within the year (from 0) of a day number counted
from 1970-01-01: the cascade of `absDate`. -/
def yearOfDays (z : Int) : Int × Int :=
  let d0 := z + 719162
  let n400 := d0 / 146097
  let d1 := d0 % 146097
  let n100 := min (d1 / 36524) 3
  let d2 := d1 - 36524 * n100
  let n4 := d2 / 1461
  let d3 := d2 % 1461
  let n1 := min (d3 / 365) 3
  (400 * n400 + 100 * n100 + 4 * n4 + n1 + 1, d3 - 365 * n1)

/-- The month and the day of the month of a day of a common year (from 0). -/
def monthDayCommon (day : Int) : Int × Int :=
  if day < 31 then (1, day + 1) else if day < 59 then (2, day - 30)
  else if day < 90 then (3, day - 58) else if day < 120 then (4, day - 89)
  else if day < 151 then (5, day - 119) else if day < 181 then (6, day - 150)
  else if day < 212 then (7, day - 180) else if day < 243 then (8, day - 211)
  else if day < 273 then (9, day - 242) else if day < 304 then (10, day - 272)
  else if day < 334 then (11, day - 303) else (12, day - 333)

/-- The month and the day of the month of a day of the year (from 0): in a
leap year day 59 is February 29 and the later days shift by one. -/
def monthDay (leap : Bool) (yday : Int) : Int × Int :=
  match leap with
  | true =>
    if yday = 59 then (2, 29)
    else if yday > 59 then monthDayCommon (yday - 1) else monthDayCommon yday
  | false => monthDayCommon yday

/-- The civil date (year, month, day) of a day number counted from 1970-01-01. -/
def civilFromDays (z : Int) : Int × Int × Int :=
  let yd := yearOfDays z
  let md := monthDay (isLeap yd.1) yd.2
  (yd.1, md.1, md.2)

/-- The function `isDigit` of package `time`. -/
def isDigit (c : Char) : Bool := decide ('0' ≤ c ∧ c ≤ '9')

/-- The value of a decimal digit, `int(c - '0')`. -/
def digitVal (c : Char) : Int := (c.toNat : Int) - 48

/-- The decimal digit of a number below ten. -/
def digitChar (n : Nat) : Char := Char.ofNat (48 + n % 10)

/-- The last `width` decimal digits of `n`. -/
def lastDigits : Nat → Nat → List Char
  | 0, _ => []
  | width + 1, n => lastDigits width (n / 10) ++ [digitChar n]

/-- The function `appendInt` of package `time`: the decimal digits of `x`,
padded with zeros to `width` digits, after a minus sign if `x` is negative. -/
def appendInt (x : Int) (width : Nat) : List Char :=
  (if x < 0 then ['-'] else []) ++
    (if x.natAbs / 10 ^ width = 0 then [] else Nat.toDigits 10 (x.natAbs / 10 ^ width)) ++
    lastDigits width x.natAbs

/-- The zone element `Z07:00` of `Time.Format`: `Z` for the offset zero,
otherwise the sign, the hours and the minutes of the offset, whose seconds
are dropped (`zone := offset / 60` truncates toward zero). -/
def formatZone (offset : Int) : List Char :=
  if offset = 0 then ['Z']
  else
    let zone := Int.tdiv offset 60
    (if zone < 0 then ['-'] else ['+']) ++
      appendInt (zone.natAbs / 60) 2 ++ [':'] ++ appendInt (zone.natAbs % 60) 2

/-- The expression `t.In(loc).Format(time.RFC3339)`, layout
`2006-01-02T15:04:05Z07:00`: the layout has no fractional second, so the
nanoseconds of `t` are not printed. -/
def format (t : Time) (loc : Location) : String :=
  let offset := loc.offset t.sec
  let abs := t.sec + offset
  let date := civilFromDays (abs / 86400)
  let secs := abs % 86400
  String.mk (appendInt date.1 4 ++ ['-'] ++ appendInt date.2.1 2 ++ ['-'] ++
    appendInt date.2.2 2 ++ ['T'] ++ appendInt (secs / 3600) 2 ++ [':'] ++
    appendInt (secs % 3600 / 60) 2 ++ [':'] ++ appendInt (secs % 60) 2 ++ formatZone offset)

/-- The function `getnum` of package `time`: one or two digits, two if `fixed`. -/
def getnum (s : List Char) (fixed : Bool) : Option (Int × List Char) :=
  match s with
  | [] => none
  | c0 :: rest =>
    if isDigit c0 = true then
      match rest with
      | [] => if fixed = true then none else some (digitVal c0, [])
      | c1 :: rest1 =>
        if isDigit c1 = true then some (digitVal c0 * 10 + digitVal c1, rest1)
        else if fixed = true then none else some (digitVal c0, rest)
    else none

/-- The year element `2006`: four digits. -/
def getyear (s : List Char) : Option (Int × List Char) :=
  match s with
  | c0 :: c1 :: c2 :: c3 :: rest =>
    if isDigit c0 = true ∧ isDigit c1 = true ∧ isDigit c2 = true ∧ isDigit c3 = true then
      some (((digitVal c0 * 10 + digitVal c1) * 10 + digitVal c2) * 10 + digitVal c3, rest)
    else none
  | _ => none

/-- A literal character of the layout. -/
def skip (c : Char) (s : List Char) : Option (List Char) :=
  match s with
  | [] => none
  | c0 :: rest => if c0 = c then some rest else none

/-- The function `parseNanoseconds` on the digits that follow the separator:
at most nine digits count, scaled to nanoseconds. -/
def parseNanoseconds (digits : List Char) : Nat :=
  (digits.take 9).foldl (fun acc c => 10 * acc + (c.toNat - 48)) 0
    * 10 ^ (9 - min 9 digits.length)

/-- The fractional second that `time.Parse` accepts after the seconds even
though the layout has none: a period or a comma followed by digits. -/
def getfrac (s : List Char) : Nat × List Char :=
  match s with
  | sep :: c :: rest =>
    if (sep = '.' ∨ sep = ',') ∧ isDigit c = true then
      (parseNanoseconds ((c :: rest).takeWhile isDigit), (c :: rest).dropWhile isDigit)
    else (0, s)
  | _ => (0, s)

/-- The zone element `Z07:00` of `time.Parse`, which must end the input: `Z`,
or a sign, two digits of hours (at most 24), a colon and two digits of minutes
(at most 60).  The result is the offset in seconds. -/
def getzone (s : List Char) : Option Int :=
  match s with
  | ['Z'] => some 0
  | [sign, h0, h1, colon, m0, m1] =>
    if colon = ':' then
      match getnum [h0, h1] true, getnum [m0, m1] true with
      | some (hr, _), some (mm, _) =>
        if hr ≤ 24 ∧ mm ≤ 60 then
          if sign = '+' then some ((hr * 60 + mm) * 60)
          else if sign = '-' then some (-((hr * 60 + mm) * 60))
          else none
        else none
      | _, _ => none
    else none
  | _ => none

/-- The fields read by `time.Parse` from a value in the RFC 3339 layout. -/
structure Fields where
  year : Int
  month : Int
  day : Int
  hour : Int
  min : Int
  sec : Int
  nsec : Nat
  zoneOffset : Int
  deriving Repr, DecidableEq

/-- The elements of the layout `2006-01-02T15:04:05Z07:00`, read in order;
no text may follow the zone. -/
def parseFields (value : List Char) : Option Fields :=
  match getyear value with
  | none => none
  | some (year, s) =>
  match (skip '-' s).bind (fun s => getnum s true) with
  | none => none
  | some (month, s) =>
  match (skip '-' s).bind (fun s => getnum s true) with
  | none => none
  | some (day, s) =>
  match (skip 'T' s).bind (fun s => getnum s false) with
  | none => none
  | some (hour, s) =>
  match (skip ':' s).bind (fun s => getnum s true) with
  | none => none
  | some (min, s) =>
  match (skip ':' s).bind (fun s => getnum s true) with
  | none => none
  | some (sec, s) =>
  match getzone (getfrac s).2 with
  | none => none
  | some zoneOffset =>
    some { year := year, month := month, day := day, hour := hour, min := min, sec := sec,
           nsec := (getfrac s).1, zoneOffset := zoneOffset }

/-- The range checks of `time.Parse` on the fields read. -/
def Fields.valid (f : Fields) : Bool :=
  decide (1 ≤ f.month) && decide (f.month ≤ 12) && decide (1 ≤ f.day)
    && decide (f.day ≤ daysIn f.month f.year) && decide (f.hour < 24) && decide (f.min < 60)
    && decide (f.sec < 60)

/-- The instant of the fields: `time.Date` in UTC, moved back by the zone offset. -/
def Fields.toTime (f : Fields) : Time :=
  { sec := daysFromCivil f.year f.month f.day * 86400 + f.hour * 3600 + f.min * 60 + f.sec
             - f.zoneOffset,
    nsec := f.nsec }

/-- The call `time.Parse(time.RFC3339, value)`, reduced to the instant parsed. -/
def parse (value : String) : Option Time :=
  match parseFields value.toList with
  | none => none
  | some f => if f.valid = true then some f.toTime else none

end GoTime

/-! ## A fragment of jq

The concrete runs below use three forms of jq queries: a path `.a.b`, the
comparison of a path with a string literal, and the update `path |= "text"`
that `modifyRecord` builds.  `MiniJq` parses and evaluates these forms as
gojq does; the other forms of jq (`select`, commas, bracket paths) are outside
the fragment and no run below uses them.  The theorems about the program are
stated for an arbitrary `Lib` and do not depend on this fragment. -/

namespace MiniJq

/-- The queries of the fragment. -/
inductive Query where
  | path (fields : List String)
  | eqStr (fields : List String) (lit : String)
  | update (fields : List String) (lit : String)
  deriving Repr, DecidableEq

/-- The characters of an identifier. -/
def isIdentChar (c : Char) : Bool := c.isAlphanum || c == '_'

/-- The fields of a path after its first dot: `cur` is the identifier being
read, `acc` the fields already read. -/
def readFields : List Char → List Char → List String → Option (List String × List Char)
  | [], cur, acc => if cur = [] then none else some (acc ++ [String.mk cur], [])
  | c :: cs, cur, acc =>
    if isIdentChar c = true then
      if cur = [] ∧ c.isDigit = true then none else readFields cs (cur ++ [c]) acc
    else if cur = [] then none
    else if c = '.' then readFields cs [] (acc ++ [String.mk cur])
    else some (acc ++ [String.mk cur], c :: cs)

/-- A path: the identity `.`, or `.a.b`. -/
def readPath (s : List Char) : Option (List String × List Char) :=
  match s with
  | '.' :: c :: cs => if isIdentChar c = true then readFields (c :: cs) [] [] else some ([], c :: cs)
  | ['.'] => some ([], [])
  | _ => none

/-- A string literal without escapes that ends the query. -/
def readLiteral (s : List Char) : Option String :=
  match s with
  | '"' :: cs =>
    match cs.reverse with
    | '"' :: body =>
      if body.all (fun c => c != '"' && c != '\\') = true then some (String.mk body.reverse)
      else none
    | _ => none
  | _ => none

/-- The parser of the fragment. -/
def parse (src : String) : Option Query :=
  match readPath src.toList with
  | none => none
  | some (fields, rest) =>
    match rest.dropWhile (fun c => c == ' ') with
    | [] => some (Query.path fields)
    | '=' :: '=' :: lit => (readLiteral (lit.dropWhile (fun c => c == ' '))).map (Query.eqStr fields)
    | '|' :: '=' :: lit => (readLiteral (lit.dropWhile (fun c => c == ' '))).map (Query.update fields)
    | _ => none

/-- The value at a path: a missing field and a field of `null` are `null`,
a field of anything but an object is an error. -/
def getpath : List String → Value → Except String Value
  | [], v => Except.ok v
  | f :: fs, Value.obj kvs => getpath fs ((kvs.lookup f).getD Value.null)
  | _ :: fs, Value.null => getpath fs Value.null
  | f :: _, _ => Except.error ("expected an object but got a value that has no field " ++ f)

/-- A field set in a field list: replaced where it is, added at the end otherwise. -/
def setField (k : String) (v : Value) : List (String × Value) → List (String × Value)
  | [] => [(k, v)]
  | (k0, v0) :: rest => if k0 = k then (k, v) :: rest else (k0, v0) :: setField k v rest

/-- The function `setpath` of jq. -/
def setpath : List String → Value → Value → Except String Value
  | [], new, _ => Except.ok new
  | f :: fs, new, Value.obj kvs =>
    match setpath fs new ((kvs.lookup f).getD Value.null) with
    | Except.ok inner => Except.ok (Value.obj (setField f inner kvs))
    | Except.error e => Except.error e
  | f :: fs, new, Value.null =>
    match setpath fs new Value.null with
    | Except.ok inner => Except.ok (Value.obj [(f, inner)])
    | Except.error e => Except.error e
  | f :: _, _, _ => Except.error ("expected an object but got a value that has no field " ++ f)

/-- The results of a query of the fragment on a value: always a single item. -/
def run (q : Query) (v : Value) : List Item :=
  match q with
  | Query.path fields =>
    match getpath fields v with
    | Except.ok r => [Item.val r]
    | Except.error e => [Item.err e]
  | Query.eqStr fields lit =>
    match getpath fields v with
    | Except.ok (Value.str s) => [Item.val (Value.bool (decide (s = lit)))]
    | Except.ok _ => [Item.val (Value.bool false)]
    | Except.error e => [Item.err e]
  | Query.update fields lit =>
    match getpath fields v with
    | Except.error e => [Item.err e]
    | Except.ok _ =>
      match setpath fields (Value.str lit) v with
      | Except.ok r => [Item.val r]
      | Except.error e => [Item.err e]

end MiniJq

/-! ## A fragment of JSON

A decoder for JSON texts made of objects, arrays, strings without escapes,
integers, `true`, `false` and `null`, the texts that the concrete runs below
decode.  Texts outside the fragment (fractions, exponents, escapes) are
rejected here although `encoding/json` accepts them, numbers are exact
integers, and leading zeros are not checked; no run below decodes such a
text. -/

namespace MiniJson

/-- Leading blanks dropped. -/
def ws (s : List Char) : List Char := s.dropWhile (fun c => c == ' ' || c == '\n' || c == '\t')

/-- The body of a string up to its closing quote. -/
def readString : List Char → List Char → Option (String × List Char)
  | [], _ => none
  | c :: cs, acc =>
    if c = '"' then some (String.mk acc, cs)
    else if c = '\\' then none
    else readString cs (acc ++ [c])

/-- A run of digits as a number. -/
def readNat (s : List Char) : Option (Nat × List Char) :=
  match s.takeWhile Char.isDigit with
  | [] => none
  | ds => some (ds.foldl (fun acc c => 10 * acc + (c.toNat - 48)) 0, s.dropWhile Char.isDigit)

mutual

/-- A JSON value, with `fuel` bounding the nesting and the number of items. -/
def readValue : Nat → List Char → Option (Value × List Char)
  | 0, _ => none
  | fuel + 1, s =>
    match ws s with
    | 'n' :: 'u' :: 'l' :: 'l' :: rest => some (Value.null, rest)
    | 't' :: 'r' :: 'u' :: 'e' :: rest => some (Value.bool true, rest)
    | 'f' :: 'a' :: 'l' :: 's' :: 'e' :: rest => some (Value.bool false, rest)
    | '"' :: rest => (readString rest []).map (fun r => (Value.str r.1, r.2))
    | '-' :: rest => (readNat rest).map (fun r => (Value.num (-(r.1 : Int)), r.2))
    | '[' :: rest =>
      match ws rest with
      | ']' :: rest2 => some (Value.arr [], rest2)
      | _ => (readElements fuel rest []).map (fun r => (Value.arr r.1, r.2))
    | '\x7b' :: rest =>
      match ws rest with
      | '\x7d' :: rest2 => some (Value.obj [], rest2)
      | _ => (readMembers fuel rest []).map (fun r => (Value.obj r.1, r.2))
    | rest => (readNat rest).map (fun r => (Value.num (r.1 : Int), r.2))

/-- The items of an array after its opening bracket or a comma. -/
def readElements : Nat → List Char → List Value → Option (List Value × List Char)
  | 0, _, _ => none
  | fuel + 1, s, acc =>
    match readValue fuel s with
    | none => none
    | some (v, rest) =>
      match ws rest with
      | ',' :: rest2 => readElements fuel rest2 (acc ++ [v])
      | ']' :: rest2 => some (acc ++ [v], rest2)
      | _ => none

/-- The members of an object after its opening brace or a comma; a repeated
key keeps its last value, as a Go map does. -/
def readMembers : Nat → List Char → List (String × Value) →
    Option (List (String × Value) × List Char)
  | 0, _, _ => none
  | fuel + 1, s, acc =>
    match ws s with
    | '"' :: rest =>
      match readString rest [] with
      | none => none
      | some (k, rest1) =>
        match ws rest1 with
        | ':' :: rest2 =>
          match readValue fuel rest2 with
          | none => none
          | some (v, rest3) =>
            match ws rest3 with
            | ',' :: rest4 => readMembers fuel rest4 (MiniJq.setField k v acc)
            | '\x7d' :: rest4 => some (MiniJq.setField k v acc, rest4)
            | _ => none
        | _ => none
    | _ => none

end

/-- The decoder: one value and nothing but blanks after it. -/
def decode (text : String) : Option Value :=
  match readValue (text.length + 1) text.toList with
  | some (v, rest) => if ws rest = [] then some v else none
  | none => none

/-- The decoder into a record, `json.Unmarshal` into a `map[string]interface{}`:
the text must be an object, or `null`, which leaves the nil map. -/
def decodeRecord (text : String) : Except String Record :=
  match decode text with
  | some (Value.obj kvs) => Except.ok kvs
  | some Value.null => Except.ok []
  | some _ => Except.error "json: cannot unmarshal into Go value of type map[string]interface {}"
  | none => Except.error "invalid character"

end MiniJson

/-! ## The libraries of the concrete runs -/

/-- An excerpt of the time zone database behind `time.LoadLocation`, for the
concrete runs only: the empty name and `UTC` are UTC, `Asia/Tokyo` is nine
hours east of UTC (its offset since 1951; earlier offsets are not modelled),
and the name `Mars/Olympus`, which the database does not know, is an error.
The other names of the database are not part of the excerpt, and no run
below uses them. -/
def zones (name : String) : Option GoTime.Location :=
  if name = "" ∨ name = "UTC" then some GoTime.UTC
  else if name = "Asia/Tokyo" then some (GoTime.FixedZone "Asia/Tokyo" 32400)
  else none

/-- The libraries of the concrete runs: `MiniJq` for gojq, `GoTime` for
package `time`, `MiniJson` for `encoding/json`. -/
def goLib : Lib MiniJq.Query GoTime.Location GoTime.Time :=
  { gojqParse := MiniJq.parse
    run := MiniJq.run
    loadLocation := zones
    timeParse := GoTime.parse
    inFormat := GoTime.format
    jsonUnmarshal := MiniJson.decode
    jsonUnmarshalRecord := MiniJson.decodeRecord }

/-- A destination handle of the concrete runs: the identifier and the type
of the destination it was loaded from, and its target. -/
structure Handle where
  id : String
  type : String
  target : String
  deriving Repr, DecidableEq

/-- Modelled from the spec: the loaders of `internal/destsns`,
`internal/destslack` and `internal/destses`, which are not among the sources.
"A loader validates that the fields relevant to its type are present and
well-formed (e.g., a non-empty target address/URL) and returns an opaque
handle"; the handle keeps the identifier of the definition. -/
def stdLoaders (type : String) : Option (Loader Handle) :=
  if type = "sns" then
    some { Load := fun c =>
      if c.SNSARN = "" then Except.error "sns_arn must be set"
      else Except.ok { id := c.ID, type := "sns", target := c.SNSARN } }
  else if type = "slack_webhook" then
    some { Load := fun c =>
      if c.WebhookURL = "" then Except.error "webhook_url must be set"
      else Except.ok { id := c.ID, type := "slack_webhook", target := c.WebhookURL } }
  else if type = "ses" then
    some { Load := fun c =>
      if c.FromEmail = "" ∨ c.ToEmails = [] then
        Except.error "to_emails and from_email must be set"
      else Except.ok { id := c.ID, type := "ses", target := c.FromEmail } }
  else none

/-- A `Send` that always succeeds. -/
def sendOk {D : Type} : SendResult D := fun _ _ => none

/-- A `Send` that always fails. -/
def sendFails {D : Type} : SendResult D := fun _ _ => some "publish failed"

/-! ## The dispatch that the specification describes -/

/-- The payload of the specification for a result data type and a matched
value: under `jsonStr` the value parsed as JSON when it is a string that
parses, the value itself in every other case. -/
def specPayload {Q L T : Type} (lib : Lib Q L T) (datatype : String) (v : Value) : Value :=
  if datatype = "jsonStr" then
    match v with
    | Value.str str => (lib.jsonUnmarshal str).getD v
    | _ => v
  else v

/-- The `Send` calls of the specification for one normalized record: for
each rule that matches, in the order of the rules, one call per destination of
the rule, in the order of its destinations. -/
def specSendsOf {Q L T D : Type} (lib : Lib Q L T) (rules : List (Rule Q D))
    (record : Record) : List (SendCall D) :=
  rules.flatMap (fun rule =>
    if (Rule.Match lib rule record).1 = true then
      rule.dests.map (fun dest =>
        { dest := dest, name := rule.name, desc := rule.desc, record := record,
          obj := specPayload lib rule.datatype (Rule.Match lib rule record).2 })
    else [])

/-- The normalized form of a record: what `modifyRecord` returns, and the
record itself where the specification says that normalization leaves it
unmodified although the code panics. -/
def normalized {Q L T D : Type} (lib : Lib Q L T) (s : server Q D) (record : Record) :
    Record :=
  match modifyRecord lib s record with
  | Outcome.returned record2 => record2
  | Outcome.panicked => record

/-- The `Send` calls of the specification for a batch: those of each record,
in the order of the records. -/
def specSends {Q L T D : Type} (lib : Lib Q L T) (s : server Q D)
    (records : List Record) : List (SendCall D) :=
  records.flatMap (fun record => specSendsOf lib s.rules (normalized lib s record))

/-- The number of rules that match a normalized record. -/
def matchesOf {Q L T D : Type} (lib : Lib Q L T) (rules : List (Rule Q D))
    (record : Record) : Nat :=
  rules.countP (fun rule => (Rule.Match lib rule record).1)

/-- The number of pairs of a record of the batch and a rule that matches it. -/
def matchPairs {Q L T D : Type} (lib : Lib Q L T) (s : server Q D)
    (records : List Record) : Nat :=
  (records.map (fun record => matchesOf lib s.rules (normalized lib s record))).sum

/-- The number of records of the batch matched by at least one rule. -/
def recordsMatched {Q L T D : Type} (lib : Lib Q L T) (s : server Q D)
    (records : List Record) : Nat :=
  records.countP (fun record =>
    s.rules.any (fun rule => (Rule.Match lib rule (normalized lib s record)).1))

/-! ## The normalization that the amended specification describes -/

/-- The rewrite of one field path in the location `loc`, in the words of the
specification: the path selects a string of the record, the string parses as
a timestamp, and the in-place update of the path to the timestamp formatted
in `loc` gives the next working copy of the record.  The result is `none` for
a path that is not rewritten. -/
def rewritePath {Q L T : Type} (lib : Lib Q L T) (loc : L) (key : String) (record : Record) :
    Option Record :=
  match lib.gojqParse key with
  | none => none
  | some q =>
    match (lib.run q (Value.obj record)).head? with
    | some (Item.val (Value.str v)) =>
      match lib.timeParse v with
      | none => none
      | some parsedTime =>
        match lib.gojqParse (key ++ " |= \"" ++ lib.inFormat parsedTime loc ++ "\"") with
        | none => none
        | some q2 =>
          match (lib.run q2 (Value.obj record)).head? with
          | some (Item.val (Value.obj m)) => some m
          | _ => none
    | _ => none

/-- The rewrite of a list of field paths, each applied to the output of the
previous ones; `none` when one of them is not rewritten. -/
def rewritePaths {Q L T : Type} (lib : Lib Q L T) (loc : L) : List String → Record → Option Record
  | [], record => some record
  | key :: keys, record =>
    match rewritePath lib loc key record with
    | none => none
    | some m => rewritePaths lib loc keys m

/-! ## Data of the concrete runs -/

/-- A record of a console login. -/
def loginRecord : Record :=
  [("eventID", Value.str "e-1"), ("eventName", Value.str "ConsoleLogin")]

/-- A record of another event. -/
def listRecord : Record :=
  [("eventID", Value.str "e-2"), ("eventName", Value.str "ListBuckets")]

/-- A record with a timestamp in UTC. -/
def timeRecord : Record :=
  [("eventName", Value.str "ConsoleLogin"), ("eventTime", Value.str "2021-01-01T00:00:00Z")]

/-- The same record with the timestamp rewritten for `Asia/Tokyo`. -/
def timeRecordTokyo : Record :=
  [("eventName", Value.str "ConsoleLogin"),
   ("eventTime", Value.str "2021-01-01T09:00:00+09:00")]

/-- A record whose `eventTime` is a number. -/
def numRecord : Record :=
  [("eventName", Value.str "ConsoleLogin"), ("eventTime", Value.num 1609459200)]

/-- A destination handle. -/
def opsHandle : Handle := { id := "ops", type := "sns", target := "arn:aws:sns:us-east-1:1:ops" }

/-- A second destination handle. -/
def chatHandle : Handle :=
  { id := "chat", type := "slack_webhook", target := "https://hooks.example/T0" }

/-- The rule `.eventName == "ConsoleLogin"` with a result data type and destinations. -/
def loginRule (datatype : String) (dests : List Handle) : Rule MiniJq.Query Handle :=
  { name := "login", desc := "console login",
    query := MiniJq.Query.eqStr ["eventName"] "ConsoleLogin",
    datatype := datatype, dests := dests }

/-- The rule `.eventName`, which matches with the name of the event as its value. -/
def nameRule (dests : List Handle) : Rule MiniJq.Query Handle :=
  { name := "any", desc := "any named event", query := MiniJq.Query.path ["eventName"],
    datatype := "jsonObj", dests := dests }

/-- A server with the given rules and general settings. -/
def mkServer (rules : List (Rule MiniJq.Query Handle)) (timezone : String)
    (keys : List String) : server MiniJq.Query Handle :=
  { rules := rules, general := { timezone := timezone, keys := keys } }

/-- A destination definition of type `sns`. -/
def snsDest (id : String) : config.Destination :=
  { ID := id, Type_ := "sns", SNSARN := "arn:aws:sns:us-east-1:1:ops", WebhookURL := "",
    ToEmails := [], FromEmail := "" }

/-- A rule definition. -/
def ruleDef (jqMatch : String) (dests : List String) : config.Rule :=
  { Name := "login", JQMatch := jqMatch, ResultDataType := "", Destinations := dests,
    Desc := "console login" }

/-- A configuration with the given destinations and rules. -/
def mkConfig (dests : List config.Destination) (rules : List config.Rule) : config.Config :=
  { Rules := rules, Destinations := dests,
    General := { TimeZone := "", Keys := [], Version := "" } }

/-- The query text of the login rule. -/
def loginMatch : String := ".eventName == \"ConsoleLogin\""

end Tattletail

/-! # Theorems -/

namespace Tattletail

/-! ## `Rule.Match` -/

/-- C1: `Rule.Match` classifies the first result of the rule's query on the
record and nothing else.  No result gives `(false, nil)`; a first result that
is an error, or null, gives matched = false; a first result that is the boolean
`b` gives `(b, b)`; any other first result `v` gives `(true, v)` with `v`
unchanged; and two runs whose first results agree give the same outcome,
whatever the later results are. -/
theorem Rule.Match_first_result {Q L T D : Type} (lib : Lib Q L T) (r : Rule Q D)
    (record : Record) :
    ((lib.run r.query (Value.obj record)).head? = none →
      Rule.Match lib r record = (false, Value.null)) ∧
    (∀ e, (lib.run r.query (Value.obj record)).head? = some (Item.err e) →
      (Rule.Match lib r record).1 = false) ∧
    ((lib.run r.query (Value.obj record)).head? = some (Item.val Value.null) →
      (Rule.Match lib r record).1 = false) ∧
    (∀ b, (lib.run r.query (Value.obj record)).head? = some (Item.val (Value.bool b)) →
      Rule.Match lib r record = (b, Value.bool b)) ∧
    (∀ v, (lib.run r.query (Value.obj record)).head? = some (Item.val v) →
      v ≠ Value.null → (∀ b, v ≠ Value.bool b) → Rule.Match lib r record = (true, v)) ∧
    (∀ (r2 : Rule Q D) (record2 : Record),
      (lib.run r2.query (Value.obj record2)).head? =
        (lib.run r.query (Value.obj record)).head? →
      Rule.Match lib r2 record2 = Rule.Match lib r record) := by
  refine ⟨?_, ?_, ?_, ?_, ?_, ?_⟩
  · intro h
    unfold Rule.Match
    cases hrun : lib.run r.query (Value.obj record) with
    | nil => rfl
    | cons x xs => simp [hrun] at h
  · intro e h
    unfold Rule.Match
    cases hrun : lib.run r.query (Value.obj record) with
    | nil => simp [hrun] at h
    | cons x xs =>
      rw [hrun] at h
      simp only [List.head?_cons, Option.some.injEq] at h
      subst h
      rfl
  · intro h
    unfold Rule.Match
    cases hrun : lib.run r.query (Value.obj record) with
    | nil => simp [hrun] at h
    | cons x xs =>
      rw [hrun] at h
      simp only [List.head?_cons, Option.some.injEq] at h
      subst h
      rfl
  · intro b h
    unfold Rule.Match
    cases hrun : lib.run r.query (Value.obj record) with
    | nil => simp [hrun] at h
    | cons x xs =>
      rw [hrun] at h
      simp only [List.head?_cons, Option.some.injEq] at h
      subst h
      rfl
  · intro v h hnull hbool
    unfold Rule.Match
    cases hrun : lib.run r.query (Value.obj record) with
    | nil => simp [hrun] at h
    | cons x xs =>
      rw [hrun] at h
      simp only [List.head?_cons, Option.some.injEq] at h
      subst h
      cases v with
      | null => exact absurd rfl hnull
      | bool b => exact absurd rfl (hbool b)
      | num n => rfl
      | str s => rfl
      | arr xs => rfl
      | obj kvs => rfl
  · intro r2 record2 h
    unfold Rule.Match
    cases hrun : lib.run r.query (Value.obj record) with
    | nil =>
      rw [hrun] at h
      cases hrun2 : lib.run r2.query (Value.obj record2) with
      | nil => rfl
      | cons y ys => simp [hrun2] at h
    | cons x xs =>
      rw [hrun] at h
      cases hrun2 : lib.run r2.query (Value.obj record2) with
      | nil => simp [hrun2] at h
      | cons y ys =>
        rw [hrun2] at h
        simp only [List.head?_cons, Option.some.injEq] at h
        subst h
        cases y with
        | err e => rfl
        | val v => cases v <;> rfl

/-- C1, on records: the login rule returns `(true, true)` on a login and
`(false, false)` on another event, and the rule `.eventName` returns the name
of the event unchanged. -/
theorem Rule.Match_first_result_witness :
    Rule.Match goLib (loginRule "jsonObj" [opsHandle]) loginRecord = (true, Value.bool true) ∧
    Rule.Match goLib (loginRule "jsonObj" [opsHandle]) listRecord = (false, Value.bool false) ∧
    Rule.Match goLib (nameRule [opsHandle]) loginRecord = (true, Value.str "ConsoleLogin") :=
  ⟨(Rule.Match_first_result goLib (loginRule "jsonObj" [opsHandle]) loginRecord).2.2.2.1
      true (by decide),
   (Rule.Match_first_result goLib (loginRule "jsonObj" [opsHandle]) listRecord).2.2.2.1
      false (by decide),
   (Rule.Match_first_result goLib (nameRule [opsHandle]) loginRecord).2.2.2.2.1
      (Value.str "ConsoleLogin") (by decide) (by decide) (by intro b h; cases h)⟩

end Tattletail

namespace Tattletail

/-! ## The batch loop -/

theorem shapePayload_returned {Q L T : Type} (lib : Lib Q L T) (datatype : String)
    (v obj : Value) (h : shapePayload lib datatype v = Outcome.returned obj) :
    obj = specPayload lib datatype v := by
  unfold shapePayload at h
  unfold specPayload
  split_ifs at h ⊢
  · cases v with
    | str str =>
      simp only at h ⊢
      cases hj : lib.jsonUnmarshal str with
      | none => rw [hj] at h; simp only [Option.getD_none]; injection h with h; exact h.symm
      | some w => rw [hj] at h; simp only [Option.getD_some]; injection h with h; exact h.symm
    | null => simp at h
    | bool b => simp at h
    | num n => simp at h
    | arr xs => simp at h
    | obj kvs => simp at h
  · injection h with h; exact h.symm

theorem destLoop_returned {Q L T D : Type} (lib : Lib Q L T) (send : SendResult D)
    (rule : Rule Q D) (record : Record) (v : Value) :
    ∀ (dests : List D) (st st2 : Run D),
      destLoop lib send rule record v dests st = (st2, Outcome.returned ()) →
      st2.sends = st.sends ++ dests.map (fun dest =>
          { dest := dest, name := rule.name, desc := rule.desc, record := record,
            obj := specPayload lib rule.datatype v }) ∧
        st2.matchCount = st.matchCount := by
  intro dests
  induction dests with
  | nil =>
    intro st st2 h
    simp only [destLoop, Prod.mk.injEq] at h
    rw [← h.1]
    simp
  | cons dest dests ih =>
    intro st st2 h
    unfold destLoop at h
    cases hs : shapePayload lib rule.datatype v with
    | panicked => rw [hs] at h; simp at h
    | returned obj =>
      rw [hs] at h
      have hobj := shapePayload_returned lib rule.datatype v obj hs
      simp only at h
      cases hsend : send st.sends.length
          { dest := dest, name := rule.name, desc := rule.desc, record := record, obj := obj } with
      | none =>
        rw [hsend] at h
        obtain ⟨h1, h2⟩ := ih _ _ h
        rw [h1, h2, hobj]
        simp
      | some err =>
        rw [hsend] at h
        obtain ⟨h1, h2⟩ := ih _ _ h
        rw [h1, h2, hobj]
        simp

theorem ruleLoop_returned {Q L T D : Type} (lib : Lib Q L T) (send : SendResult D)
    (record : Record) :
    ∀ (rules : List (Rule Q D)) (st st2 : Run D),
      ruleLoop lib send record rules st = (st2, Outcome.returned ()) →
      st2.sends = st.sends ++ specSendsOf lib rules record ∧
        st2.matchCount = st.matchCount + matchesOf lib rules record := by
  intro rules
  induction rules with
  | nil =>
    intro st st2 h
    simp only [ruleLoop, Prod.mk.injEq] at h
    rw [← h.1]
    simp [specSendsOf, matchesOf]
  | cons rule rules ih =>
    intro st st2 h
    unfold ruleLoop at h
    cases hm : Rule.Match lib rule record with
    | mk matched resultData =>
      rw [hm] at h
      cases matched with
      | false =>
        simp only at h
        obtain ⟨h1, h2⟩ := ih _ _ h
        rw [h1, h2]
        simp [specSendsOf, matchesOf, hm]
      | true =>
        simp only at h
        cases hd : destLoop lib send rule record resultData rule.dests
            { st with matchCount := st.matchCount + 1 } with
        | mk st3 out =>
          rw [hd] at h
          cases out with
          | panicked => simp at h
          | returned u =>
            simp only at h
            obtain ⟨d1, d2⟩ := destLoop_returned lib send rule record resultData _ _ _ hd
            obtain ⟨h1, h2⟩ := ih _ _ h
            rw [h1, h2, d1, d2]
            simp [specSendsOf, matchesOf, hm, List.flatMap_cons]
            omega

end Tattletail

namespace Tattletail

theorem processRecord_returned {Q L T D : Type} (lib : Lib Q L T) (send : SendResult D)
    (s : server Q D) (record : Record) (st st2 : Run D)
    (h : processRecord lib send s record st = (st2, Outcome.returned ())) :
    st2.sends = st.sends ++ specSendsOf lib s.rules (normalized lib s record) ∧
      st2.matchCount = st.matchCount + matchesOf lib s.rules (normalized lib s record) := by
  unfold processRecord at h
  unfold normalized
  cases hm : modifyRecord lib s record with
  | panicked => rw [hm] at h; simp at h
  | returned record2 =>
    rw [hm] at h
    exact ruleLoop_returned lib send record2 s.rules st st2 h

theorem recordLoopS3_returned {Q L T D : Type} (lib : Lib Q L T) (send : SendResult D)
    (s : server Q D) :
    ∀ (records : List Record) (st st2 : Run D),
      recordLoopS3 lib send s records st = (st2, Outcome.returned ()) →
      st2.sends = st.sends ++ specSends lib s records ∧
        st2.matchCount = st.matchCount + matchPairs lib s records := by
  intro records
  induction records with
  | nil =>
    intro st st2 h
    simp only [recordLoopS3, Prod.mk.injEq] at h
    rw [← h.1]
    simp [specSends, matchPairs]
  | cons record records ih =>
    intro st st2 h
    unfold recordLoopS3 at h
    cases hp : processRecord lib send s record st with
    | mk st3 out =>
      rw [hp] at h
      cases out with
      | panicked => simp at h
      | returned u =>
        simp only at h
        obtain ⟨p1, p2⟩ := processRecord_returned lib send s record st st3 hp
        obtain ⟨h1, h2⟩ := ih _ _ h
        rw [h1, h2, p1, p2]
        simp [specSends, matchPairs, List.flatMap_cons]
        omega

/-- When `handleRecordS3` returns on a decoded batch, it returns nil, its
`Send` calls are those of the specification and its counters are the number
of records and the number of (record, rule) matches. -/
theorem handleRecordS3_returned {Q L T D : Type} (lib : Lib Q L T) (send : SendResult D)
    (s : server Q D) (records : List Record) (st : Run D) (res : Except String Counters)
    (h : handleRecordS3 lib send s (Except.ok records) = (st, Outcome.returned res)) :
    res = Except.ok { record_count := records.length,
                      match_count := matchPairs lib s records } ∧
      st.sends = specSends lib s records := by
  unfold handleRecordS3 at h
  simp only at h
  cases hl : recordLoopS3 lib send s records Run.init with
  | mk st3 out =>
    rw [hl] at h
    cases out with
    | panicked => simp at h
    | returned u =>
      simp only [Prod.mk.injEq, Outcome.returned.injEq] at h
      obtain ⟨h1, h2⟩ := recordLoopS3_returned lib send s records _ _ hl
      obtain ⟨e1, e2⟩ := h
      subst e1
      rw [← e2, h2, h1]
      simp [Run.init]

/-- The outcome of the CloudWatch Logs loop as the outcome of the S3 loop
on the decoded records. -/
theorem recordLoopCWLogs_decoded {Q L T D : Type} (lib : Lib Q L T) (send : SendResult D)
    (s : server Q D) :
    ∀ (messages : List String) (records : List Record) (st : Run D),
      messages.map lib.jsonUnmarshalRecord = records.map Except.ok →
      recordLoopCWLogs lib send s messages st =
        ((recordLoopS3 lib send s records st).1,
          match (recordLoopS3 lib send s records st).2 with
          | Outcome.returned _ => Outcome.returned none
          | Outcome.panicked => Outcome.panicked) := by
  intro messages
  induction messages with
  | nil =>
    intro records st h
    cases records with
    | nil => simp [recordLoopCWLogs, recordLoopS3]
    | cons r rs => simp at h
  | cons message messages ih =>
    intro records st h
    cases records with
    | nil => simp at h
    | cons r rs =>
      simp only [List.map_cons, List.cons.injEq] at h
      obtain ⟨h1, h2⟩ := h
      unfold recordLoopCWLogs recordLoopS3
      rw [h1]
      simp only
      cases hp : processRecord lib send s r st with
      | mk st3 out =>
        cases out with
        | panicked => simp
        | returned u =>
          simp only
          exact ih rs st3 h2

/-- On a batch whose messages all decode, `handleRecordCWLogs` does what
`handleRecordS3` does on the decoded records. -/
theorem handleRecordCWLogs_decoded {Q L T D : Type} (lib : Lib Q L T) (send : SendResult D)
    (s : server Q D) (messages : List String) (records : List Record)
    (h : messages.map lib.jsonUnmarshalRecord = records.map Except.ok) :
    handleRecordCWLogs lib send s (Except.ok messages) =
      handleRecordS3 lib send s (Except.ok records) := by
  have hlen : messages.length = records.length := by
    have := congrArg List.length h
    simpa using this
  unfold handleRecordCWLogs handleRecordS3
  simp only
  rw [recordLoopCWLogs_decoded lib send s messages records Run.init h]
  cases hl : recordLoopS3 lib send s records Run.init with
  | mk st3 out =>
    cases out with
    | panicked => simp
    | returned u => simp [hlen]

end Tattletail

namespace Tattletail

/-! ## Failures of `Send` -/

theorem destLoop_send_irrelevant {Q L T D : Type} (lib : Lib Q L T) (send1 send2 : SendResult D)
    (rule : Rule Q D) (record : Record) (v : Value) :
    ∀ (dests : List D) (st1 st2 : Run D),
      st1.sends = st2.sends → st1.matchCount = st2.matchCount →
      (destLoop lib send1 rule record v dests st1).1.sends =
          (destLoop lib send2 rule record v dests st2).1.sends ∧
        (destLoop lib send1 rule record v dests st1).1.matchCount =
          (destLoop lib send2 rule record v dests st2).1.matchCount ∧
        (destLoop lib send1 rule record v dests st1).2 =
          (destLoop lib send2 rule record v dests st2).2 := by
  intro dests
  induction dests with
  | nil => intro st1 st2 h1 h2; simp [destLoop, h1, h2]
  | cons dest dests ih =>
    intro st1 st2 h1 h2
    unfold destLoop
    cases hs : shapePayload lib rule.datatype v with
    | panicked => simp [h1, h2]
    | returned obj =>
      simp only
      cases hsend1 : send1 st1.sends.length
          { dest := dest, name := rule.name, desc := rule.desc, record := record, obj := obj } <;>
      cases hsend2 : send2 st2.sends.length
          { dest := dest, name := rule.name, desc := rule.desc, record := record, obj := obj } <;>
      simp only <;>
      exact ih _ _ (by simp [h1]) (by simp [h2])

theorem ruleLoop_send_irrelevant {Q L T D : Type} (lib : Lib Q L T) (send1 send2 : SendResult D)
    (record : Record) :
    ∀ (rules : List (Rule Q D)) (st1 st2 : Run D),
      st1.sends = st2.sends → st1.matchCount = st2.matchCount →
      (ruleLoop lib send1 record rules st1).1.sends =
          (ruleLoop lib send2 record rules st2).1.sends ∧
        (ruleLoop lib send1 record rules st1).1.matchCount =
          (ruleLoop lib send2 record rules st2).1.matchCount ∧
        (ruleLoop lib send1 record rules st1).2 = (ruleLoop lib send2 record rules st2).2 := by
  intro rules
  induction rules with
  | nil => intro st1 st2 h1 h2; simp [ruleLoop, h1, h2]
  | cons rule rules ih =>
    intro st1 st2 h1 h2
    unfold ruleLoop
    cases hm : Rule.Match lib rule record with
    | mk matched resultData =>
      cases matched with
      | false => simp only; exact ih _ _ h1 h2
      | true =>
        simp only
        obtain ⟨d1, d2, d3⟩ := destLoop_send_irrelevant lib send1 send2 rule record resultData
          rule.dests { st1 with matchCount := st1.matchCount + 1 }
          { st2 with matchCount := st2.matchCount + 1 } h1 (by simp [h2])
        cases hd1 : destLoop lib send1 rule record resultData rule.dests
            { st1 with matchCount := st1.matchCount + 1 } with
        | mk sa oa =>
          cases hd2 : destLoop lib send2 rule record resultData rule.dests
              { st2 with matchCount := st2.matchCount + 1 } with
          | mk sb ob =>
            rw [hd1, hd2] at d1 d2 d3
            simp only at d1 d2 d3
            subst d3
            cases oa with
            | panicked => simp [d1, d2]
            | returned u => simp only; exact ih _ _ d1 d2

theorem processRecord_send_irrelevant {Q L T D : Type} (lib : Lib Q L T)
    (send1 send2 : SendResult D) (s : server Q D) (record : Record) (st1 st2 : Run D)
    (h1 : st1.sends = st2.sends) (h2 : st1.matchCount = st2.matchCount) :
    (processRecord lib send1 s record st1).1.sends =
        (processRecord lib send2 s record st2).1.sends ∧
      (processRecord lib send1 s record st1).1.matchCount =
        (processRecord lib send2 s record st2).1.matchCount ∧
      (processRecord lib send1 s record st1).2 = (processRecord lib send2 s record st2).2 := by
  unfold processRecord
  cases hm : modifyRecord lib s record with
  | panicked => simp [h1, h2]
  | returned record2 =>
    simp only
    exact ruleLoop_send_irrelevant lib send1 send2 record2 s.rules st1 st2 h1 h2

theorem recordLoopS3_send_irrelevant {Q L T D : Type} (lib : Lib Q L T)
    (send1 send2 : SendResult D) (s : server Q D) :
    ∀ (records : List Record) (st1 st2 : Run D),
      st1.sends = st2.sends → st1.matchCount = st2.matchCount →
      (recordLoopS3 lib send1 s records st1).1.sends =
          (recordLoopS3 lib send2 s records st2).1.sends ∧
        (recordLoopS3 lib send1 s records st1).1.matchCount =
          (recordLoopS3 lib send2 s records st2).1.matchCount ∧
        (recordLoopS3 lib send1 s records st1).2 =
          (recordLoopS3 lib send2 s records st2).2 := by
  intro records
  induction records with
  | nil => intro st1 st2 h1 h2; simp [recordLoopS3, h1, h2]
  | cons record records ih =>
    intro st1 st2 h1 h2
    unfold recordLoopS3
    obtain ⟨d1, d2, d3⟩ := processRecord_send_irrelevant lib send1 send2 s record st1 st2 h1 h2
    cases hd1 : processRecord lib send1 s record st1 with
    | mk sa oa =>
      cases hd2 : processRecord lib send2 s record st2 with
      | mk sb ob =>
        rw [hd1, hd2] at d1 d2 d3
        simp only at d1 d2 d3
        subst d3
        cases oa with
        | panicked => simp [d1, d2]
        | returned u => simp only; exact ih _ _ d1 d2

theorem recordLoopCWLogs_send_irrelevant {Q L T D : Type} (lib : Lib Q L T)
    (send1 send2 : SendResult D) (s : server Q D) :
    ∀ (messages : List String) (st1 st2 : Run D),
      st1.sends = st2.sends → st1.matchCount = st2.matchCount →
      (recordLoopCWLogs lib send1 s messages st1).1.sends =
          (recordLoopCWLogs lib send2 s messages st2).1.sends ∧
        (recordLoopCWLogs lib send1 s messages st1).1.matchCount =
          (recordLoopCWLogs lib send2 s messages st2).1.matchCount ∧
        (recordLoopCWLogs lib send1 s messages st1).2 =
          (recordLoopCWLogs lib send2 s messages st2).2 := by
  intro messages
  induction messages with
  | nil => intro st1 st2 h1 h2; simp [recordLoopCWLogs, h1, h2]
  | cons message messages ih =>
    intro st1 st2 h1 h2
    unfold recordLoopCWLogs
    cases hj : lib.jsonUnmarshalRecord message with
    | error err => simp [h1, h2]
    | ok record =>
      simp only
      obtain ⟨d1, d2, d3⟩ :=
        processRecord_send_irrelevant lib send1 send2 s record st1 st2 h1 h2
      cases hd1 : processRecord lib send1 s record st1 with
      | mk sa oa =>
        cases hd2 : processRecord lib send2 s record st2 with
        | mk sb ob =>
          rw [hd1, hd2] at d1 d2 d3
          simp only at d1 d2 d3
          subst d3
          cases oa with
          | panicked => simp [d1, d2]
          | returned u => simp only; exact ih _ _ d1 d2

end Tattletail

namespace Tattletail

/-- The results of `Send` do not steer a handler.  For every rule list and
every batch, two runs of a handler that differ only in the errors returned by
the `Send` calls make the same `Send` calls (destination and arguments, in the
same order) and end the same way; and on a decoded batch the handler never
returns an error, whatever the `Send` calls return: it returns nil, or a type
assertion of the loop panics. -/
theorem Send_failures_isolated {Q L T D : Type} (lib : Lib Q L T) (s : server Q D)
    (send1 send2 : SendResult D) :
    (∀ doc, (handleRecordS3 lib send1 s doc).1.sends = (handleRecordS3 lib send2 s doc).1.sends ∧
      (handleRecordS3 lib send1 s doc).2 = (handleRecordS3 lib send2 s doc).2) ∧
    (∀ data, (handleRecordCWLogs lib send1 s data).1.sends =
        (handleRecordCWLogs lib send2 s data).1.sends ∧
      (handleRecordCWLogs lib send1 s data).2 = (handleRecordCWLogs lib send2 s data).2) ∧
    (∀ records, (handleRecordS3 lib send1 s (Except.ok records)).2 = Outcome.panicked ∨
      ∃ c, (handleRecordS3 lib send1 s (Except.ok records)).2 = Outcome.returned (Except.ok c)) ∧
    (∀ (messages : List String) (records : List Record),
      messages.map lib.jsonUnmarshalRecord = records.map Except.ok →
      ((handleRecordCWLogs lib send1 s (Except.ok messages)).2 = Outcome.panicked ∨
        ∃ c, (handleRecordCWLogs lib send1 s (Except.ok messages)).2 =
          Outcome.returned (Except.ok c))) := by
  have hS3 : ∀ records, (handleRecordS3 lib send1 s (Except.ok records)).2 = Outcome.panicked ∨
      ∃ c, (handleRecordS3 lib send1 s (Except.ok records)).2 =
        Outcome.returned (Except.ok c) := by
    intro records
    unfold handleRecordS3
    simp only
    cases hl : recordLoopS3 lib send1 s records Run.init with
    | mk st out =>
      cases out with
      | panicked => left; rfl
      | returned u => right; exact ⟨_, rfl⟩
  refine ⟨?_, ?_, hS3, ?_⟩
  · intro doc
    cases doc with
    | error err => simp [handleRecordS3]
    | ok records =>
      unfold handleRecordS3
      simp only
      obtain ⟨d1, d2, d3⟩ :=
        recordLoopS3_send_irrelevant lib send1 send2 s records Run.init Run.init rfl rfl
      cases h1 : recordLoopS3 lib send1 s records Run.init with
      | mk sa oa =>
        cases h2 : recordLoopS3 lib send2 s records Run.init with
        | mk sb ob =>
          rw [h1, h2] at d1 d2 d3
          simp only at d1 d2 d3
          subst d3
          cases oa with
          | panicked => simp [d1]
          | returned u => simp [d1, d2]
  · intro data
    cases data with
    | error err => simp [handleRecordCWLogs]
    | ok messages =>
      unfold handleRecordCWLogs
      simp only
      obtain ⟨d1, d2, d3⟩ :=
        recordLoopCWLogs_send_irrelevant lib send1 send2 s messages Run.init Run.init rfl rfl
      cases h1 : recordLoopCWLogs lib send1 s messages Run.init with
      | mk sa oa =>
        cases h2 : recordLoopCWLogs lib send2 s messages Run.init with
        | mk sb ob =>
          rw [h1, h2] at d1 d2 d3
          simp only at d1 d2 d3
          subst d3
          cases oa with
          | panicked => simp [d1]
          | returned e =>
            cases e with
            | none => simp [d1, d2]
            | some err => simp [d1]
  · intro messages records h
    rw [handleRecordCWLogs_decoded lib send1 s messages records h]
    exact hS3 records

/-- A batch on which the handlers return: with two rules and three `Send`
calls that all fail, the calls are those of the run in which they all succeed,
the three errors are logged and both handlers return nil. -/
theorem Send_failures_isolated_witness :
    (handleRecordS3 goLib sendFails
        (mkServer [loginRule "jsonObj" [opsHandle, chatHandle], nameRule [chatHandle]] "" [])
        (Except.ok [loginRecord])).1.sends =
      (handleRecordS3 goLib sendOk
        (mkServer [loginRule "jsonObj" [opsHandle, chatHandle], nameRule [chatHandle]] "" [])
        (Except.ok [loginRecord])).1.sends ∧
    (handleRecordS3 goLib sendFails
        (mkServer [loginRule "jsonObj" [opsHandle, chatHandle], nameRule [chatHandle]] "" [])
        (Except.ok [loginRecord])).1.sendErrs =
      ["publish failed", "publish failed", "publish failed"] ∧
    (handleRecordS3 goLib sendFails
        (mkServer [loginRule "jsonObj" [opsHandle, chatHandle], nameRule [chatHandle]] "" [])
        (Except.ok [loginRecord])).2 =
      Outcome.returned (Except.ok { record_count := 1, match_count := 2 }) ∧
    (handleRecordCWLogs goLib sendFails
        (mkServer [loginRule "jsonObj" [opsHandle, chatHandle], nameRule [chatHandle]] "" [])
        (Except.ok ["\x7b\"eventName\":\"ConsoleLogin\"\x7d"])).2 =
      Outcome.returned (Except.ok { record_count := 1, match_count := 2 }) :=
  ⟨((Send_failures_isolated goLib
      (mkServer [loginRule "jsonObj" [opsHandle, chatHandle], nameRule [chatHandle]] "" [])
      sendFails sendOk).1 (Except.ok [loginRecord])).1, by decide, rfl, rfl⟩

/-- C3 (defect of the code): a handler does not return nil on every decoded
batch when `Send` calls fail.  With the login rule bound to one destination
under `jsonObj` and to another under `jsonStr`, the login record makes one
`Send` call, which fails and is logged; the second rule then matches with the
boolean `true` and the type assertion `resultData.(string)` panics, in both
handlers, so neither returns nil.  The calls made are the same when the
`Send` call succeeds. -/
theorem handlers_panic_after_failed_send :
    handleRecordS3 goLib sendFails
        (mkServer [loginRule "jsonObj" [opsHandle], loginRule "jsonStr" [chatHandle]] "" [])
        (Except.ok [loginRecord]) =
      ({ sends := [{ dest := opsHandle, name := "login", desc := "console login",
                     record := loginRecord, obj := Value.bool true }],
         sendErrs := ["publish failed"], matchCount := 2 }, Outcome.panicked) ∧
    handleRecordCWLogs goLib sendFails
        (mkServer [loginRule "jsonObj" [opsHandle], loginRule "jsonStr" [chatHandle]] "" [])
        (Except.ok ["\x7b\"eventID\":\"e-1\",\"eventName\":\"ConsoleLogin\"\x7d"]) =
      ({ sends := [{ dest := opsHandle, name := "login", desc := "console login",
                     record := loginRecord, obj := Value.bool true }],
         sendErrs := ["publish failed"], matchCount := 2 }, Outcome.panicked) ∧
    handleRecordS3 goLib sendOk
        (mkServer [loginRule "jsonObj" [opsHandle], loginRule "jsonStr" [chatHandle]] "" [])
        (Except.ok [loginRecord]) =
      ({ sends := [{ dest := opsHandle, name := "login", desc := "console login",
                     record := loginRecord, obj := Value.bool true }],
         sendErrs := [], matchCount := 2 }, Outcome.panicked) :=
  ⟨rfl, rfl, rfl⟩

end Tattletail

namespace Tattletail

/-! ## `loadConfig` -/

theorem lookup_isSome_iff {D : Type} (k : String) :
    ∀ (m : List (String × D)), (m.lookup k).isSome = true ↔ k ∈ m.map Prod.fst := by
  intro m
  induction m with
  | nil => simp
  | cons p m ih =>
    obtain ⟨k0, d0⟩ := p
    by_cases h : k = k0
    · subst h; simp [List.lookup]
    · have h2 : (k == k0) = false := by simpa using h
      simp [List.lookup, h2, ih, h]

theorem lookup_mem {D : Type} (k : String) (d : D) :
    ∀ (m : List (String × D)), m.lookup k = some d → (k, d) ∈ m := by
  intro m
  induction m with
  | nil => simp
  | cons p m ih =>
    obtain ⟨k0, d0⟩ := p
    by_cases h : k = k0
    · subst h
      simp only [List.lookup, beq_self_eq_true, Option.some.injEq, List.mem_cons, Prod.mk.injEq,
        true_and]
      intro h; left; exact h.symm
    · have h2 : (k == k0) = false := by simpa using h
      simp only [List.lookup, h2]
      intro hl
      exact List.mem_cons_of_mem _ (ih hl)

/-- The destination loop succeeds exactly when every definition has a loader
that accepts it and no identifier repeats; the map then holds the loaded
handles under the identifiers of their definitions. -/
theorem loadDestinations_ok {D : Type} (loaders : String → Option (Loader D)) (ID : D → String) :
    ∀ (dests : List config.Destination) (acc : List (String × D)),
      (∀ dest ∈ dests, ∀ l d, loaders dest.Type_ = some l → l.Load dest = Except.ok d →
        ID d = dest.ID) →
      ((∃ m, loadDestinations loaders ID dests acc = Except.ok m) ↔
        ((∀ dest ∈ dests, ∃ l d, loaders dest.Type_ = some l ∧ l.Load dest = Except.ok d) ∧
          (dests.map (fun dest => dest.ID)).Nodup ∧
          ∀ dest ∈ dests, dest.ID ∉ acc.map Prod.fst)) := by
  intro dests
  induction dests with
  | nil => intro acc _; simp [loadDestinations]
  | cons dest dests ih =>
    intro acc hID
    have hID2 : ∀ dest2 ∈ dests, ∀ l d, loaders dest2.Type_ = some l →
        l.Load dest2 = Except.ok d → ID d = dest2.ID :=
      fun dest2 h2 => hID dest2 (List.mem_cons_of_mem _ h2)
    unfold loadDestinations
    cases hl : loaders dest.Type_ with
    | none =>
      simp only [List.mem_cons, forall_eq_or_imp, hl]
      simp
    | some loader =>
      simp only
      cases hload : loader.Load dest with
      | error err =>
        simp only [List.mem_cons, forall_eq_or_imp, hl, Option.some.injEq]
        simp [hload]
      | ok d =>
        have hd : ID d = dest.ID := hID dest (List.mem_cons_self _ _) loader d hl hload
        simp only
        by_cases hdup : (acc.lookup (ID d)).isSome = true
        · rw [if_pos hdup]
          have hmem := (lookup_isSome_iff (ID d) acc).1 hdup
          rw [hd] at hmem
          simp only [List.mem_cons, forall_eq_or_imp]
          constructor
          · rintro ⟨m, hm⟩; cases hm
          · rintro ⟨_, _, h3, _⟩; exact absurd hmem h3
        · rw [if_neg hdup]
          have hnot : dest.ID ∉ acc.map Prod.fst := by
            rw [← hd]; intro hc; exact hdup ((lookup_isSome_iff (ID d) acc).2 hc)
          rw [ih ((ID d, d) :: acc) hID2]
          simp only [List.mem_cons, forall_eq_or_imp, List.map_cons, List.nodup_cons,
            hl, Option.some.injEq, hd]
          constructor
          · rintro ⟨h1, h2, h3⟩
            refine ⟨⟨⟨loader, d, rfl, hload⟩, h1⟩, ⟨?_, h2⟩, hnot, ?_⟩
            · intro hc
              obtain ⟨dest2, hmem2, heq⟩ := List.mem_map.1 hc
              exact (h3 dest2 hmem2) (Or.inl heq)
            · intro dest2 hmem2 hc
              exact (h3 dest2 hmem2) (Or.inr hc)
          · rintro ⟨⟨_, h1⟩, ⟨hn, h2⟩, _, h3⟩
            refine ⟨h1, h2, ?_⟩
            intro dest2 hmem2 hc
            rcases hc with hc | hc
            · exact hn (List.mem_map.2 ⟨dest2, hmem2, hc⟩)
            · exact h3 dest2 hmem2 hc

/-- The entries of the map built by the destination loop: those of the
initial map and, for each definition, its identifier with the handle loaded
from it. -/
theorem loadDestinations_entries {D : Type} (loaders : String → Option (Loader D))
    (ID : D → String) :
    ∀ (dests : List config.Destination) (acc m : List (String × D)),
      (∀ dest ∈ dests, ∀ l d, loaders dest.Type_ = some l → l.Load dest = Except.ok d →
        ID d = dest.ID) →
      loadDestinations loaders ID dests acc = Except.ok m →
      (∀ k d, (k, d) ∈ m ↔ ((k, d) ∈ acc ∨ ∃ dest ∈ dests, dest.ID = k ∧
        ∃ l, loaders dest.Type_ = some l ∧ l.Load dest = Except.ok d)) := by
  intro dests
  induction dests with
  | nil =>
    intro acc m _ h k d
    simp only [loadDestinations, Except.ok.injEq] at h
    subst h
    simp
  | cons dest dests ih =>
    intro acc m hID h k d
    have hID2 : ∀ dest2 ∈ dests, ∀ l d, loaders dest2.Type_ = some l →
        l.Load dest2 = Except.ok d → ID d = dest2.ID :=
      fun dest2 h2 => hID dest2 (List.mem_cons_of_mem _ h2)
    unfold loadDestinations at h
    cases hl : loaders dest.Type_ with
    | none => rw [hl] at h; cases h
    | some loader =>
      rw [hl] at h
      simp only at h
      cases hload : loader.Load dest with
      | error err => rw [hload] at h; cases h
      | ok d0 =>
        rw [hload] at h
        have hd : ID d0 = dest.ID := hID dest (List.mem_cons_self _ _) loader d0 hl hload
        simp only at h
        split_ifs at h with hdup
        rw [ih _ _ hID2 h k d]
        simp only [List.mem_cons, Prod.mk.injEq, exists_eq_or_imp, hl, Option.some.injEq,
          hd]
        constructor
        · rintro ((⟨rfl, rfl⟩ | h1) | h2)
          · right; left; exact ⟨rfl, loader, rfl, hload⟩
          · left; exact h1
          · right; right; exact h2
        · rintro (h1 | ⟨rfl, l, rfl, h2⟩ | h2)
          · left; right; exact h1
          · left; left
            rw [hload] at h2
            exact ⟨rfl, (Except.ok.inj h2).symm⟩
          · right; exact h2

end Tattletail

namespace Tattletail

theorem resolveDests_ok {D : Type} (m : List (String × D)) :
    ∀ (names : List String) (acc : List D),
      (∃ ds, resolveDests m names acc = Except.ok ds) ↔ ∀ name ∈ names, name ∈ m.map Prod.fst := by
  intro names
  induction names with
  | nil => intro acc; simp [resolveDests]
  | cons name names ih =>
    intro acc
    unfold resolveDests
    cases hl : m.lookup name with
    | none =>
      have hnot : name ∉ m.map Prod.fst := by
        intro hc
        have := (lookup_isSome_iff name m).2 hc
        rw [hl] at this
        cases this
      simp only [List.mem_cons, forall_eq_or_imp]
      constructor
      · rintro ⟨ds, hds⟩; cases hds
      · rintro ⟨h1, _⟩; exact absurd h1 hnot
    | some dest =>
      have hin : name ∈ m.map Prod.fst := by
        apply (lookup_isSome_iff name m).1
        rw [hl]; rfl
      simp only [List.mem_cons, forall_eq_or_imp]
      rw [ih]
      exact ⟨fun h => ⟨hin, h⟩, fun h => h.2⟩

theorem resolveDests_result {D : Type} (m : List (String × D)) :
    ∀ (names : List String) (acc ds : List D),
      resolveDests m names acc = Except.ok ds →
      ∃ ds2, ds = acc ++ ds2 ∧ List.Forall₂ (fun name d => m.lookup name = some d) names ds2 := by
  intro names
  induction names with
  | nil =>
    intro acc ds h
    simp only [resolveDests, Except.ok.injEq] at h
    exact ⟨[], by simp [h], List.Forall₂.nil⟩
  | cons name names ih =>
    intro acc ds h
    unfold resolveDests at h
    cases hl : m.lookup name with
    | none => rw [hl] at h; cases h
    | some dest =>
      rw [hl] at h
      simp only at h
      obtain ⟨ds2, h1, h2⟩ := ih _ _ h
      exact ⟨dest :: ds2, by simp [h1], List.Forall₂.cons hl h2⟩

theorem compileRule_ok {Q L T D : Type} (lib : Lib Q L T) (m : List (String × D)) (i : Nat)
    (rule : config.Rule) :
    (∃ r, compileRule lib m i rule = Except.ok r) ↔
      (rule.JQMatch ≠ "" ∧ lib.gojqParse rule.JQMatch ≠ none ∧
        ∀ name ∈ rule.Destinations, name ∈ m.map Prod.fst) := by
  unfold compileRule
  by_cases he : rule.JQMatch = ""
  · rw [if_pos he]
    constructor
    · rintro ⟨r, hr⟩; cases hr
    · rintro ⟨h, _⟩; exact absurd he h
  · rw [if_neg he]
    cases hp : lib.gojqParse rule.JQMatch with
    | none =>
      constructor
      · rintro ⟨r, hr⟩; cases hr
      · rintro ⟨_, h, _⟩; exact absurd rfl h
    | some q =>
      simp only
      rw [← resolveDests_ok m rule.Destinations []]
      cases hr : resolveDests m rule.Destinations [] with
      | error name =>
        constructor
        · rintro ⟨r, hr2⟩; cases hr2
        · rintro ⟨_, _, ds, hds⟩; cases hds
      | ok ds =>
        constructor
        · intro _; exact ⟨he, by simp, ds, rfl⟩
        · intro _; exact ⟨_, rfl⟩

theorem compileRule_result {Q L T D : Type} (lib : Lib Q L T) (m : List (String × D)) (i : Nat)
    (rule : config.Rule) (r : Rule Q D) (h : compileRule lib m i rule = Except.ok r) :
    r.name = rule.Name ∧ r.desc = rule.Desc ∧ lib.gojqParse rule.JQMatch = some r.query ∧
      r.datatype = (if rule.ResultDataType = "" then "jsonObj" else rule.ResultDataType) ∧
      List.Forall₂ (fun name d => m.lookup name = some d) rule.Destinations r.dests := by
  unfold compileRule at h
  by_cases he : rule.JQMatch = ""
  · rw [if_pos he] at h; cases h
  · rw [if_neg he] at h
    cases hp : lib.gojqParse rule.JQMatch with
    | none => rw [hp] at h; cases h
    | some q =>
      rw [hp] at h
      simp only at h
      cases hr : resolveDests m rule.Destinations [] with
      | error name => rw [hr] at h; cases h
      | ok ds =>
        rw [hr] at h
        simp only [Except.ok.injEq] at h
        obtain ⟨ds2, h1, h2⟩ := resolveDests_result m _ _ _ hr
        simp only [List.nil_append] at h1
        subst h1
        subst h
        refine ⟨rfl, rfl, rfl, ?_, h2⟩
        by_cases hd : rule.ResultDataType = "" <;> simp [hd]

theorem loadRules_ok {Q L T D : Type} (lib : Lib Q L T) (m : List (String × D)) :
    ∀ (rules : List config.Rule) (i : Nat) (acc : List (Rule Q D)),
      (loadRules lib m i rules acc).2 = none ↔
        ∀ rule ∈ rules, rule.JQMatch ≠ "" ∧ lib.gojqParse rule.JQMatch ≠ none ∧
          ∀ name ∈ rule.Destinations, name ∈ m.map Prod.fst := by
  intro rules
  induction rules with
  | nil => intro i acc; simp [loadRules]
  | cons rule rules ih =>
    intro i acc
    unfold loadRules
    simp only [List.mem_cons, forall_eq_or_imp]
    rw [← compileRule_ok lib m i rule]
    cases hc : (compileRule lib m i rule : Except ConfigError (Rule Q D)) with
    | error err => simp
    | ok r =>
      simp only
      rw [ih]
      exact ⟨fun h => ⟨⟨r, rfl⟩, h⟩, fun h => h.2⟩

theorem loadRules_result {Q L T D : Type} (lib : Lib Q L T) (m : List (String × D)) :
    ∀ (rules : List config.Rule) (i : Nat) (acc rs : List (Rule Q D)),
      loadRules lib m i rules acc = (rs, none) →
      ∃ rs2, rs = acc ++ rs2 ∧
        List.Forall₂ (fun rule r => ∃ j, compileRule lib m j rule = Except.ok r) rules rs2 := by
  intro rules
  induction rules with
  | nil =>
    intro i acc rs h
    simp only [loadRules, Prod.mk.injEq, and_true] at h
    exact ⟨[], by simp [h], List.Forall₂.nil⟩
  | cons rule rules ih =>
    intro i acc rs h
    unfold loadRules at h
    cases hc : (compileRule lib m i rule : Except ConfigError (Rule Q D)) with
    | error err => rw [hc] at h; simp at h
    | ok r =>
      rw [hc] at h
      simp only at h
      obtain ⟨rs2, h1, h2⟩ := ih _ _ _ h
      exact ⟨r :: rs2, by simp [h1], List.Forall₂.cons ⟨i, hc⟩ h2⟩

end Tattletail

namespace Tattletail

theorem stdLoaders_ID (c : config.Destination) (l : Loader Handle) (d : Handle)
    (h1 : stdLoaders c.Type_ = some l) (h2 : l.Load c = Except.ok d) : d.id = c.ID := by
  unfold stdLoaders at h1
  split_ifs at h1 <;> simp only [Option.some.injEq] at h1 <;> subst h1 <;>
    simp only at h2 <;> split_ifs at h2 <;> simp only [Except.ok.injEq] at h2 <;>
    subst h2 <;> rfl

/-- The keys of the map built by the destination loop are the identifiers
of the destination definitions. -/
theorem loadDestinations_keys {D : Type} (loaders : String → Option (Loader D)) (ID : D → String)
    (dests : List config.Destination) (m : List (String × D))
    (hID : ∀ dest ∈ dests, ∀ l d, loaders dest.Type_ = some l → l.Load dest = Except.ok d →
      ID d = dest.ID)
    (h : loadDestinations loaders ID dests [] = Except.ok m) (name : String) :
    name ∈ m.map Prod.fst ↔ name ∈ dests.map (fun dest => dest.ID) := by
  have hent := loadDestinations_entries loaders ID dests [] m hID h
  have hall := ((loadDestinations_ok loaders ID dests [] hID).1 ⟨m, h⟩).1
  constructor
  · intro hn
    obtain ⟨⟨k, d⟩, hmem, hk⟩ := List.mem_map.1 hn
    simp only at hk
    subst hk
    rcases (hent k d).1 hmem with hc | ⟨dest, hd, hid, _⟩
    · simp at hc
    · exact List.mem_map.2 ⟨dest, hd, hid⟩
  · intro hn
    obtain ⟨dest, hd, hid⟩ := List.mem_map.1 hn
    obtain ⟨l, d, hl, hload⟩ := hall dest hd
    exact List.mem_map.2 ⟨(name, d), (hent name d).2 (Or.inr ⟨dest, hd, hid, l, hl, hload⟩), rfl⟩

/-- C4: once the configuration document is decoded, `loadConfig` returns an
error if and only if a destination's type has no registered loader, or a
destination's loader rejects it, or two destinations share an identifier, or
a rule has an empty match expression, or a rule's match expression does not
parse, or a rule names a destination identifier that no destination
definition has.  The handles are assumed to carry the identifier of their
definition, as those of the repository's loaders do. -/
theorem loadConfig_error_iff {Q L T D : Type} (lib : Lib Q L T)
    (loaders : String → Option (Loader D)) (ID : D → String) (s : server Q D)
    (conf : config.Config)
    (hID : ∀ dest ∈ conf.Destinations, ∀ l d, loaders dest.Type_ = some l →
      l.Load dest = Except.ok d → ID d = dest.ID) :
    (loadConfig lib loaders ID s conf).2 ≠ none ↔
      ((∃ dest ∈ conf.Destinations, loaders dest.Type_ = none) ∨
       (∃ dest ∈ conf.Destinations, ∃ l err, loaders dest.Type_ = some l ∧
          l.Load dest = Except.error err) ∨
       ¬ (conf.Destinations.map (fun dest => dest.ID)).Nodup ∨
       (∃ rule ∈ conf.Rules, rule.JQMatch = "") ∨
       (∃ rule ∈ conf.Rules, lib.gojqParse rule.JQMatch = none) ∨
       (∃ rule ∈ conf.Rules, ∃ name ∈ rule.Destinations,
          name ∉ conf.Destinations.map (fun dest => dest.ID))) := by
  have hok := loadDestinations_ok loaders ID conf.Destinations [] hID
  unfold loadConfig
  simp only
  cases hd : loadDestinations loaders ID conf.Destinations [] with
  | error err =>
    simp only [ne_eq, not_false_eq_true, true_iff, reduceCtorEq]
    have hnot : ¬ ((∀ dest ∈ conf.Destinations, ∃ l d, loaders dest.Type_ = some l ∧
        l.Load dest = Except.ok d) ∧
        (conf.Destinations.map (fun dest => dest.ID)).Nodup ∧
        ∀ dest ∈ conf.Destinations, dest.ID ∉ ([] : List (String × D)).map Prod.fst) := by
      intro hc
      obtain ⟨m, hm⟩ := hok.2 hc
      rw [hd] at hm
      cases hm
    by_cases hnd : (conf.Destinations.map (fun dest => dest.ID)).Nodup
    · by_cases hall : ∀ dest ∈ conf.Destinations, ∃ l d, loaders dest.Type_ = some l ∧
          l.Load dest = Except.ok d
      · exact absurd ⟨hall, hnd, by simp⟩ hnot
      · push_neg at hall
        obtain ⟨dest, hmem, hbad⟩ := hall
        cases hl : loaders dest.Type_ with
        | none => exact Or.inl ⟨dest, hmem, hl⟩
        | some l =>
          cases hload : l.Load dest with
          | error e => exact Or.inr (Or.inl ⟨dest, hmem, l, e, hl, hload⟩)
          | ok d => exact absurd hload (hbad l d hl)
    · exact Or.inr (Or.inr (Or.inl hnd))
  | ok m =>
    simp only
    obtain ⟨hall, hnd, _⟩ := hok.1 ⟨m, hd⟩
    have hkeys := loadDestinations_keys loaders ID conf.Destinations m hID hd
    have hrules := loadRules_ok (Q := Q) (D := D) lib m conf.Rules 0 []
    cases hr : loadRules lib m 0 conf.Rules ([] : List (Rule Q D)) with
    | mk rules err =>
      rw [hr] at hrules
      simp only at hrules ⊢
      constructor
      · intro herr
        have hne : ¬ ∀ rule ∈ conf.Rules, rule.JQMatch ≠ "" ∧
            lib.gojqParse rule.JQMatch ≠ none ∧
            ∀ name ∈ rule.Destinations, name ∈ m.map Prod.fst := fun hc => herr (hrules.2 hc)
        push_neg at hne
        obtain ⟨rule, hmem, hbad⟩ := hne
        by_cases h1 : rule.JQMatch = ""
        · exact Or.inr (Or.inr (Or.inr (Or.inl ⟨rule, hmem, h1⟩)))
        · by_cases h2 : lib.gojqParse rule.JQMatch = none
          · exact Or.inr (Or.inr (Or.inr (Or.inr (Or.inl ⟨rule, hmem, h2⟩))))
          · obtain ⟨name, hn, hnm⟩ := hbad h1 h2
            exact Or.inr (Or.inr (Or.inr (Or.inr (Or.inr
              ⟨rule, hmem, name, hn, fun hc => hnm ((hkeys name).2 hc)⟩))))
      · intro h herr
        have hgood := hrules.1 herr
        rcases h with ⟨dest, hmem, hl⟩ | ⟨dest, hmem, l, e, hl, hload⟩ | hdup |
            ⟨rule, hmem, he⟩ | ⟨rule, hmem, hp⟩ | ⟨rule, hmem, name, hn, hnm⟩
        · obtain ⟨l, d, hl2, _⟩ := hall dest hmem
          rw [hl] at hl2; cases hl2
        · obtain ⟨l2, d, hl2, hload2⟩ := hall dest hmem
          rw [hl] at hl2
          cases hl2
          rw [hload] at hload2; cases hload2
        · exact hdup hnd
        · exact (hgood rule hmem).1 he
        · exact (hgood rule hmem).2.1 hp
        · exact hnm ((hkeys name).1 ((hgood rule hmem).2.2 name hn))

/-- C4, on configurations: the loaders of the repository keep the identifier,
and a configuration with two destinations of the same identifier makes
`loadConfig` fail. -/
theorem loadConfig_error_iff_witness :
    (∀ dest ∈ (mkConfig [snsDest "ops", snsDest "ops"] [ruleDef loginMatch ["ops"]]).Destinations,
      ∀ l d, stdLoaders dest.Type_ = some l → l.Load dest = Except.ok d → d.id = dest.ID) ∧
    (loadConfig goLib stdLoaders Handle.id (mkServer [] "" [])
      (mkConfig [snsDest "ops", snsDest "ops"] [ruleDef loginMatch ["ops"]])).2 ≠ none :=
  ⟨fun dest _ l d h1 h2 => stdLoaders_ID dest l d h1 h2,
   (loadConfig_error_iff goLib stdLoaders Handle.id (mkServer [] "" [])
      (mkConfig [snsDest "ops", snsDest "ops"] [ruleDef loginMatch ["ops"]])
      (fun dest _ l d h1 h2 => stdLoaders_ID dest l d h1 h2)).2
      (Or.inr (Or.inr (Or.inl (by decide))))⟩

end Tattletail

namespace Tattletail

/-- C5: when `loadConfig` succeeds, the compiled rules are the configured
rules one for one and in the declared order: the compiled rule carries the
name and the description of its definition and the parsed match expression,
its result data type is the declared one, or `jsonObj` when none is declared,
and its destinations are, identifier by identifier and in the same order, the
handles loaded from the destination definitions with these identifiers.  The
general settings are those of the configuration. -/
theorem loadConfig_rules {Q L T D : Type} (lib : Lib Q L T)
    (loaders : String → Option (Loader D)) (ID : D → String) (s : server Q D)
    (conf : config.Config)
    (hID : ∀ dest ∈ conf.Destinations, ∀ l d, loaders dest.Type_ = some l →
      l.Load dest = Except.ok d → ID d = dest.ID)
    (hok : (loadConfig lib loaders ID s conf).2 = none) :
    (loadConfig lib loaders ID s conf).1.rules.length = conf.Rules.length ∧
    List.Forall₂ (fun (rule : config.Rule) (r : Rule Q D) =>
      r.name = rule.Name ∧ r.desc = rule.Desc ∧
      lib.gojqParse rule.JQMatch = some r.query ∧
      r.datatype = (if rule.ResultDataType = "" then "jsonObj" else rule.ResultDataType) ∧
      r.dests.length = rule.Destinations.length ∧
      List.Forall₂ (fun (name : String) (d : D) =>
        ∃ dest ∈ conf.Destinations, dest.ID = name ∧
          ∃ l, loaders dest.Type_ = some l ∧ l.Load dest = Except.ok d)
        rule.Destinations r.dests)
      conf.Rules (loadConfig lib loaders ID s conf).1.rules ∧
    (loadConfig lib loaders ID s conf).1.general =
      { timezone := conf.General.TimeZone, keys := conf.General.Keys } := by
  unfold loadConfig at hok ⊢
  simp only at hok ⊢
  cases hd : loadDestinations loaders ID conf.Destinations [] with
  | error err => rw [hd] at hok; simp at hok
  | ok m =>
    rw [hd] at hok
    simp only at hok ⊢
    have hent := loadDestinations_entries loaders ID conf.Destinations [] m hID hd
    cases hr : loadRules lib m 0 conf.Rules ([] : List (Rule Q D)) with
    | mk rules err =>
      rw [hr] at hok
      simp only at hok ⊢
      subst hok
      obtain ⟨rs2, h1, h2⟩ := loadRules_result lib m conf.Rules 0 [] rules hr
      simp only [List.nil_append] at h1
      subst h1
      have hF : List.Forall₂ (fun (rule : config.Rule) (r : Rule Q D) =>
          r.name = rule.Name ∧ r.desc = rule.Desc ∧
          lib.gojqParse rule.JQMatch = some r.query ∧
          r.datatype = (if rule.ResultDataType = "" then "jsonObj" else rule.ResultDataType) ∧
          r.dests.length = rule.Destinations.length ∧
          List.Forall₂ (fun (name : String) (d : D) =>
            ∃ dest ∈ conf.Destinations, dest.ID = name ∧
              ∃ l, loaders dest.Type_ = some l ∧ l.Load dest = Except.ok d)
            rule.Destinations r.dests) conf.Rules rules := by
        refine List.Forall₂.imp ?_ h2
        rintro rule r ⟨j, hj⟩
        obtain ⟨c1, c2, c3, c4, c5⟩ := compileRule_result lib m j rule r hj
        refine ⟨c1, c2, c3, c4, c5.length_eq.symm, ?_⟩
        refine List.Forall₂.imp ?_ c5
        intro name d hl
        rcases (hent name d).1 (lookup_mem name d m hl) with hc | hc
        · simp at hc
        · exact hc
      exact ⟨hF.length_eq.symm, hF, trivial⟩

/-- C5, on a configuration: the configuration with the destination `ops` and
the login rule bound to it loads without error, and the compiled rule list
is the login rule with the default result data type and the handle of `ops`. -/
theorem loadConfig_rules_witness :
    (loadConfig goLib stdLoaders Handle.id (mkServer [] "" [])
      (mkConfig [snsDest "ops"] [ruleDef loginMatch ["ops"]])).2 = none ∧
    (loadConfig goLib stdLoaders Handle.id (mkServer [] "" [])
      (mkConfig [snsDest "ops"] [ruleDef loginMatch ["ops"]])).1.rules.length = 1 ∧
    (loadConfig goLib stdLoaders Handle.id (mkServer [] "" [])
      (mkConfig [snsDest "ops"] [ruleDef loginMatch ["ops"]])).1.rules.map
        (fun r => (r.name, r.datatype, r.dests)) = [("login", "jsonObj", [opsHandle])] :=
  ⟨by decide,
   (loadConfig_rules goLib stdLoaders Handle.id (mkServer [] "" [])
      (mkConfig [snsDest "ops"] [ruleDef loginMatch ["ops"]])
      (fun dest _ l d h1 h2 => stdLoaders_ID dest l d h1 h2) (by decide)).1,
   by decide⟩

end Tattletail
namespace Tattletail

/-! ## Concrete runs of the batch loop -/

/-- C2 (defect of the code): the login rule with result data type `jsonStr`
and one destination matches the login record with the boolean `true`, so one
`Send` call is due for the triple of the record, the rule and the destination;
`handleRecordS3` makes no `Send` call on this batch, it panics in the type
assertion `resultData.(string)` after counting the match. -/
theorem handleRecordS3_jsonStr_match_not_sent :
    Rule.Match goLib (loginRule "jsonStr" [opsHandle]) loginRecord = (true, Value.bool true) ∧
    modifyRecord goLib (mkServer [loginRule "jsonStr" [opsHandle]] "" []) loginRecord =
      Outcome.returned loginRecord ∧
    specSends goLib (mkServer [loginRule "jsonStr" [opsHandle]] "" []) [loginRecord] =
      [{ dest := opsHandle, name := "login", desc := "console login", record := loginRecord,
         obj := Value.bool true }] ∧
    handleRecordS3 goLib sendOk (mkServer [loginRule "jsonStr" [opsHandle]] "" [])
        (Except.ok [loginRecord]) =
      ({ sends := [], sendErrs := [], matchCount := 1 }, Outcome.panicked) := by
  refine ⟨by decide, by decide, by decide, rfl⟩

/-- C6 (defect of the code): under `jsonStr` a matched value that is not a
string, such as the boolean `true` of a boolean match, makes the payload lines
panic, so `Send` is not invoked: `handleRecordCWLogs` on one login message ends
in a panic with no `Send` call made.  A matched string is shaped as the claim
says: the text of an object is sent as the object, a text that is not JSON
unchanged. -/
theorem shapePayload_jsonStr_boolean_panics :
    shapePayload goLib "jsonStr" (Value.bool true) = Outcome.panicked ∧
    handleRecordCWLogs goLib sendOk (mkServer [loginRule "jsonStr" [opsHandle]] "" [])
        (Except.ok ["\x7b\"eventName\":\"ConsoleLogin\"\x7d"]) =
      ({ sends := [], sendErrs := [], matchCount := 1 }, Outcome.panicked) ∧
    shapePayload goLib "jsonObj" (Value.bool true) = Outcome.returned (Value.bool true) ∧
    shapePayload goLib "jsonStr" (Value.str "\x7b\"k\":1\x7d") =
      Outcome.returned (Value.obj [("k", Value.num 1)]) ∧
    shapePayload goLib "jsonStr" (Value.str "ConsoleLogin") =
      Outcome.returned (Value.str "ConsoleLogin") := by
  refine ⟨by decide, rfl, by decide, by decide, by decide⟩

/-- C8 (defect of the code): `modifyRecord` panics on a record whose
configured field is a number (the type assertion `v.(string)`), and on a
record with a valid timestamp when the timezone name is unknown (the location
is left nil and `Time.In` panics); with the same unknown timezone and no
timestamp to rewrite it returns the record. -/
theorem modifyRecord_panics :
    modifyRecord goLib (mkServer [] "" [".eventTime"]) numRecord = Outcome.panicked ∧
    (zones "Mars/Olympus").isNone = true ∧
    modifyRecord goLib (mkServer [] "Mars/Olympus" [".eventTime"]) timeRecord =
      Outcome.panicked ∧
    modifyRecord goLib (mkServer [] "Mars/Olympus" [".eventTime"]) loginRecord =
      Outcome.returned loginRecord := by
  refine ⟨by decide, by decide, by decide, by decide⟩

end Tattletail
namespace Tattletail

/-! ## The counters -/

/-- C9, as stated, fails: on a batch of one record that two rules match,
`handleRecordS3` reports `match_count = 2`, while one record of the batch is
matched by at least one rule. -/
theorem match_count_counts_each_rule :
    (handleRecordS3 goLib sendOk
        (mkServer [loginRule "jsonObj" [opsHandle], nameRule [chatHandle]] "" [])
        (Except.ok [loginRecord])).2 =
      Outcome.returned (Except.ok { record_count := 1, match_count := 2 }) ∧
    recordsMatched goLib
        (mkServer [loginRule "jsonObj" [opsHandle], nameRule [chatHandle]] "" [])
        [loginRecord] = 1 ∧
    matchPairs goLib
        (mkServer [loginRule "jsonObj" [opsHandle], nameRule [chatHandle]] "" [])
        [loginRecord] = 2 :=
  ⟨rfl, by decide, by decide⟩

/-- C9, amended: when a handler runs a batch of `N` decoded records to its
end, the counters it reports are `record_count = N` and `match_count =` the
number of pairs of a record and a rule that matches it (a record matched by
several rules is counted once per rule). -/
theorem counters_count_rule_matches {Q L T D : Type} (lib : Lib Q L T) (send : SendResult D)
    (s : server Q D) (messages : List String) (records : List Record)
    (res : Except String Counters)
    (hdec : messages.map lib.jsonUnmarshalRecord = records.map Except.ok)
    (hret : (handleRecordS3 lib send s (Except.ok records)).2 = Outcome.returned res) :
    res = Except.ok { record_count := records.length,
                      match_count := matchPairs lib s records } ∧
    (handleRecordCWLogs lib send s (Except.ok messages)).2 =
      Outcome.returned (Except.ok { record_count := messages.length,
                                    match_count := matchPairs lib s records }) := by
  have hlen : messages.length = records.length := by
    have := congrArg List.length hdec
    simpa using this
  have hres : res = Except.ok { record_count := records.length,
                                match_count := matchPairs lib s records } :=
    (handleRecordS3_returned lib send s records
      (handleRecordS3 lib send s (Except.ok records)).1 res
      (Prod.ext rfl hret)).1
  refine ⟨hres, ?_⟩
  rw [handleRecordCWLogs_decoded lib send s messages records hdec, hret, hres, hlen]

/-- C9, amended, on a batch of two records: the first is matched by two
rules, the second by one, and both handlers report two records and three
matches. -/
theorem counters_count_rule_matches_witness :
    Except.ok { record_count := 2, match_count := 3 } =
      (Except.ok { record_count := 2,
                   match_count := matchPairs goLib
                     (mkServer [loginRule "jsonObj" [opsHandle], nameRule [chatHandle]] "" [])
                     [[("eventName", Value.str "ConsoleLogin")],
                      [("eventName", Value.str "ListBuckets")]] } :
        Except String Counters) ∧
    (handleRecordCWLogs goLib sendOk
        (mkServer [loginRule "jsonObj" [opsHandle], nameRule [chatHandle]] "" [])
        (Except.ok ["\x7b\"eventName\":\"ConsoleLogin\"\x7d",
                    "\x7b\"eventName\":\"ListBuckets\"\x7d"])).2 =
      Outcome.returned
        (Except.ok { record_count := 2,
                     match_count := matchPairs goLib
                       (mkServer [loginRule "jsonObj" [opsHandle], nameRule [chatHandle]] "" [])
                       [[("eventName", Value.str "ConsoleLogin")],
                        [("eventName", Value.str "ListBuckets")]] }) :=
  counters_count_rule_matches goLib sendOk
    (mkServer [loginRule "jsonObj" [opsHandle], nameRule [chatHandle]] "" [])
    ["\x7b\"eventName\":\"ConsoleLogin\"\x7d", "\x7b\"eventName\":\"ListBuckets\"\x7d"]
    [[("eventName", Value.str "ConsoleLogin")], [("eventName", Value.str "ListBuckets")]]
    (Except.ok { record_count := 2, match_count := 3 })
    rfl rfl

end Tattletail
namespace Tattletail

/-! ## `modifyRecord` -/

/-- A path that is rewritten makes the loop go on with the next keys from
the rewritten record. -/
theorem modifyRecord.loop_rewritePath {Q L T : Type} (lib : Lib Q L T) (loc : L)
    (key : String) (keys : List String) (record m : Record)
    (h : rewritePath lib loc key record = some m) :
    modifyRecord.loop lib (some loc) (key :: keys) record =
      modifyRecord.loop lib (some loc) keys m := by
  unfold rewritePath at h
  rw [modifyRecord.loop]
  cases hq : lib.gojqParse key with
  | none => rw [hq] at h; simp at h
  | some q =>
    rw [hq] at h
    simp only at h ⊢
    cases hrun : (lib.run q (Value.obj record)).head? with
    | none => rw [hrun] at h; simp at h
    | some item =>
      rw [hrun] at h
      cases item with
      | err e => simp at h
      | val v =>
        cases v with
        | null => simp at h
        | bool b => simp at h
        | num n => simp at h
        | arr xs => simp at h
        | obj kvs => simp at h
        | str v =>
          simp only at h ⊢
          cases ht : lib.timeParse v with
          | none => rw [ht] at h; simp at h
          | some parsedTime =>
            rw [ht] at h
            simp only at h ⊢
            cases hq2 : lib.gojqParse (key ++ " |= \"" ++ lib.inFormat parsedTime loc ++ "\"") with
            | none => rw [hq2] at h; simp at h
            | some q2 =>
              rw [hq2] at h
              simp only at h ⊢
              cases hrun2 : (lib.run q2 (Value.obj record)).head? with
              | none => rw [hrun2] at h; simp at h
              | some item2 =>
                rw [hrun2] at h
                cases item2 with
                | err e => simp at h
                | val v2 =>
                  cases v2 with
                  | null => simp at h
                  | bool b => simp at h
                  | num n => simp at h
                  | arr xs => simp at h
                  | str s2 => simp at h
                  | obj m2 =>
                    simp only [Option.some.injEq] at h
                    subst h
                    rfl

/-- Paths that are all rewritten, each on the output of the previous ones,
make the loop go on with the keys after them from the rewritten record. -/
theorem modifyRecord.loop_rewritePaths {Q L T : Type} (lib : Lib Q L T) (loc : L)
    (rest : List String) :
    ∀ (pre : List String) (record r : Record), rewritePaths lib loc pre record = some r →
      modifyRecord.loop lib (some loc) (pre ++ rest) record =
        modifyRecord.loop lib (some loc) rest r := by
  intro pre
  induction pre with
  | nil =>
    intro record r h
    simp only [rewritePaths, Option.some.injEq] at h
    subst h
    rfl
  | cons key keys ih =>
    intro record r h
    rw [rewritePaths] at h
    cases hk : rewritePath lib loc key record with
    | none => rw [hk] at h; simp at h
    | some m =>
      rw [hk] at h
      simp only at h
      rw [List.cons_append, modifyRecord.loop_rewritePath lib loc key (keys ++ rest) record m hk]
      exact ih m r h

/-- C7, as stated, fails: with the keys `[".missing", ".eventTime"]` and the
timezone `Asia/Tokyo`, the record with a valid `eventTime` is returned
unchanged (the absent first path ends the loop), although with the key
`[".eventTime"]` alone the field is rewritten. -/
theorem modifyRecord_missing_path_ends_normalization :
    modifyRecord goLib (mkServer [] "Asia/Tokyo" [".missing", ".eventTime"]) timeRecord =
      Outcome.returned timeRecord ∧
    modifyRecord goLib (mkServer [] "Asia/Tokyo" [".eventTime"]) timeRecord =
      Outcome.returned timeRecordTokyo ∧
    timeRecordTokyo ≠ timeRecord := by
  refine ⟨by decide, by decide, by decide⟩

/-- C7, amended: the field paths are applied in order, each to the output of
the previous ones, up to the first path that is skipped.  When the paths `pre`
are rewritten one after the other (`rewritePaths`), turning the record into
`r`, then the loop over `pre` alone returns `r`; and when the next path `key`
has an expression that does not parse, or selects on `r` no value, null, or a
string that is not a parsable timestamp, the loop over `pre`, `key` and any
later paths `post` also returns `r`: normalization ends at `key`, and none of
the later paths is applied. -/
theorem modifyRecord_rewrites_until_first_skipped_path {Q L T : Type} (lib : Lib Q L T)
    (loc : L) (pre post : List String) (key : String) (record r : Record)
    (hpre : rewritePaths lib loc pre record = some r)
    (hskip : lib.gojqParse key = none ∨
      ∃ q, lib.gojqParse key = some q ∧
        ((lib.run q (Value.obj r)).head? = none ∨
         (lib.run q (Value.obj r)).head? = some (Item.val Value.null) ∨
         ∃ v, (lib.run q (Value.obj r)).head? = some (Item.val (Value.str v)) ∧
           lib.timeParse v = none)) :
    modifyRecord.loop lib (some loc) pre record = Outcome.returned r ∧
    modifyRecord.loop lib (some loc) (pre ++ key :: post) record = Outcome.returned r := by
  constructor
  · have h := modifyRecord.loop_rewritePaths lib loc [] pre record r hpre
    rw [List.append_nil] at h
    rw [h]
    rfl
  · rw [modifyRecord.loop_rewritePaths lib loc (key :: post) pre record r hpre,
      modifyRecord.loop]
    rcases hskip with hq | ⟨q, hq, hrun | hrun | ⟨v, hrun, ht⟩⟩
    · rw [hq]
    · rw [hq]; simp only; rw [hrun]
    · rw [hq]; simp only; rw [hrun]
    · rw [hq]; simp only; rw [hrun]; simp only; rw [ht]

/-- C7, amended, on a record with three timestamps: with the timezone
`Asia/Tokyo`, the paths `.eventTime` and `.eventTime2` are rewritten one after
the other, the absent path `.missing` ends the loop, and the path
`.eventTime3` after it is not applied although it points at a valid
timestamp. -/
theorem modifyRecord_rewrites_until_first_skipped_path_witness :
    modifyRecord.loop goLib (some (GoTime.FixedZone "Asia/Tokyo" 32400))
        [".eventTime", ".eventTime2"]
        [("eventTime", Value.str "2021-01-01T00:00:00Z"),
         ("eventTime2", Value.str "2021-01-01T18:30:00Z"),
         ("eventTime3", Value.str "2021-01-01T00:00:00Z")] =
      Outcome.returned
        [("eventTime", Value.str "2021-01-01T09:00:00+09:00"),
         ("eventTime2", Value.str "2021-01-02T03:30:00+09:00"),
         ("eventTime3", Value.str "2021-01-01T00:00:00Z")] ∧
    modifyRecord.loop goLib (some (GoTime.FixedZone "Asia/Tokyo" 32400))
        ([".eventTime", ".eventTime2"] ++ ".missing" :: [".eventTime3"])
        [("eventTime", Value.str "2021-01-01T00:00:00Z"),
         ("eventTime2", Value.str "2021-01-01T18:30:00Z"),
         ("eventTime3", Value.str "2021-01-01T00:00:00Z")] =
      Outcome.returned
        [("eventTime", Value.str "2021-01-01T09:00:00+09:00"),
         ("eventTime2", Value.str "2021-01-02T03:30:00+09:00"),
         ("eventTime3", Value.str "2021-01-01T00:00:00Z")] :=
  modifyRecord_rewrites_until_first_skipped_path goLib (GoTime.FixedZone "Asia/Tokyo" 32400)
    [".eventTime", ".eventTime2"] [".eventTime3"] ".missing" _ _ (by decide)
    (Or.inr ⟨MiniJq.Query.path ["missing"], by decide, Or.inr (Or.inl (by decide))⟩)

end Tattletail
namespace Tattletail

namespace GoTime

/-! ## The calendar of package `time` -/

theorem daysSinceEpoch_decomp (a b c e : Int) (hb0 : 0 ≤ b) (hb : b ≤ 3) (hc0 : 0 ≤ c)
    (hc : c ≤ 24) (he0 : 0 ≤ e) (he : e ≤ 3) :
    daysSinceEpoch (400 * a + 100 * b + 4 * c + e + 1)
      = 146097 * a + 36524 * b + 1461 * c + 365 * e := by
  simp only [daysSinceEpoch]
  omega

theorem isLeap_decomp (a b c e : Int) (hb0 : 0 ≤ b) (hb : b ≤ 3) (hc0 : 0 ≤ c)
    (hc : c ≤ 24) (he0 : 0 ≤ e) (he : e ≤ 3) :
    isLeap (400 * a + 100 * b + 4 * c + e + 1) = true ↔ (e = 3 ∧ (c ≠ 24 ∨ b = 3)) := by
  simp only [isLeap, decide_eq_true_eq]
  omega

theorem year_aux (d0 n100 n1 : Int) (h1 : n100 = min (d0 % 146097 / 36524) 3)
    (h2 : n1 = min ((d0 % 146097 - 36524 * n100) % 1461 / 365) 3) :
    daysSinceEpoch (400 * (d0 / 146097) + 100 * n100
        + 4 * ((d0 % 146097 - 36524 * n100) / 1461) + n1 + 1)
      + ((d0 % 146097 - 36524 * n100) % 1461 - 365 * n1) = d0 ∧
    0 ≤ (d0 % 146097 - 36524 * n100) % 1461 - 365 * n1 ∧
    (isLeap (400 * (d0 / 146097) + 100 * n100
        + 4 * ((d0 % 146097 - 36524 * n100) / 1461) + n1 + 1) = true →
      (d0 % 146097 - 36524 * n100) % 1461 - 365 * n1 < 366) ∧
    (isLeap (400 * (d0 / 146097) + 100 * n100
        + 4 * ((d0 % 146097 - 36524 * n100) / 1461) + n1 + 1) = false →
      (d0 % 146097 - 36524 * n100) % 1461 - 365 * n1 < 365) := by
  rw [min_def] at h1
  have hb0 : 0 ≤ n100 := by split_ifs at h1 <;> omega
  have hb : n100 ≤ 3 := by split_ifs at h1 <;> omega
  have hd2 : 0 ≤ d0 % 146097 - 36524 * n100 ∧
      d0 % 146097 - 36524 * n100 < 36525 ∧
      (n100 < 3 → d0 % 146097 - 36524 * n100 < 36524) := by
    split_ifs at h1 <;> omega
  have hd0 : d0 = 146097 * (d0 / 146097) + d0 % 146097 := by omega
  generalize d0 / 146097 = n400 at *
  generalize hd2e : d0 % 146097 - 36524 * n100 = d2 at *
  rw [min_def] at h2
  have he0 : 0 ≤ n1 := by split_ifs at h2 <;> omega
  have he : n1 ≤ 3 := by split_ifs at h2 <;> omega
  have hc0 : 0 ≤ d2 / 1461 := by omega
  have hc : d2 / 1461 ≤ 24 := by omega
  rw [daysSinceEpoch_decomp _ _ _ _ hb0 hb hc0 hc he0 he]
  have hl := isLeap_decomp n400 n100 (d2 / 1461) n1 hb0 hb hc0 hc he0 he
  refine ⟨?_, ?_, ?_, ?_⟩
  · omega
  · split_ifs at h2 <;> omega
  · intro _
    split_ifs at h2 <;> omega
  · intro h
    have h3 : ¬ (n1 = 3 ∧ (d2 / 1461 ≠ 24 ∨ n100 = 3)) := by
      rw [← hl, h]; simp
    split_ifs at h2 <;> omega

theorem daysBefore_vals : daysBefore 1 = 0 ∧ daysBefore 2 = 31 ∧ daysBefore 3 = 59 ∧
    daysBefore 4 = 90 ∧ daysBefore 5 = 120 ∧ daysBefore 6 = 151 ∧ daysBefore 7 = 181 ∧
    daysBefore 8 = 212 ∧ daysBefore 9 = 243 ∧ daysBefore 10 = 273 ∧ daysBefore 11 = 304 ∧
    daysBefore 12 = 334 ∧ daysBefore 13 = 365 := by decide

theorem monthDayCommon_spec (day : Int) (h0 : 0 ≤ day) (h1 : day < 365) :
    ∃ m d, monthDayCommon day = (m, d) ∧ 1 ≤ m ∧ m ≤ 12 ∧ 1 ≤ d ∧
      d ≤ daysBefore (m + 1) - daysBefore m ∧ daysBefore m + (d - 1) = day ∧
      (m ≤ 2 ↔ day < 59) := by
  obtain ⟨e1, e2, e3, e4, e5, e6, e7, e8, e9, e10, e11, e12, e13⟩ := daysBefore_vals
  have s1 : ((1 : Int) + 1) = 2 := rfl
  have s2 : ((2 : Int) + 1) = 3 := rfl
  have s3 : ((3 : Int) + 1) = 4 := rfl
  have s4 : ((4 : Int) + 1) = 5 := rfl
  have s5 : ((5 : Int) + 1) = 6 := rfl
  have s6 : ((6 : Int) + 1) = 7 := rfl
  have s7 : ((7 : Int) + 1) = 8 := rfl
  have s8 : ((8 : Int) + 1) = 9 := rfl
  have s9 : ((9 : Int) + 1) = 10 := rfl
  have s10 : ((10 : Int) + 1) = 11 := rfl
  have s11 : ((11 : Int) + 1) = 12 := rfl
  have s12 : ((12 : Int) + 1) = 13 := rfl
  unfold monthDayCommon
  by_cases c1 : day < 31
  · rw [if_pos c1]
    refine ⟨_, _, rfl, ?_⟩
    rw [s1, e1, e2]
    omega
  · rw [if_neg c1]
    by_cases c2 : day < 59
    · rw [if_pos c2]
      refine ⟨_, _, rfl, ?_⟩
      rw [s2, e2, e3]
      omega
    · rw [if_neg c2]
      by_cases c3 : day < 90
      · rw [if_pos c3]
        refine ⟨_, _, rfl, ?_⟩
        rw [s3, e3, e4]
        omega
      · rw [if_neg c3]
        by_cases c4 : day < 120
        · rw [if_pos c4]
          refine ⟨_, _, rfl, ?_⟩
          rw [s4, e4, e5]
          omega
        · rw [if_neg c4]
          by_cases c5 : day < 151
          · rw [if_pos c5]
            refine ⟨_, _, rfl, ?_⟩
            rw [s5, e5, e6]
            omega
          · rw [if_neg c5]
            by_cases c6 : day < 181
            · rw [if_pos c6]
              refine ⟨_, _, rfl, ?_⟩
              rw [s6, e6, e7]
              omega
            · rw [if_neg c6]
              by_cases c7 : day < 212
              · rw [if_pos c7]
                refine ⟨_, _, rfl, ?_⟩
                rw [s7, e7, e8]
                omega
              · rw [if_neg c7]
                by_cases c8 : day < 243
                · rw [if_pos c8]
                  refine ⟨_, _, rfl, ?_⟩
                  rw [s8, e8, e9]
                  omega
                · rw [if_neg c8]
                  by_cases c9 : day < 273
                  · rw [if_pos c9]
                    refine ⟨_, _, rfl, ?_⟩
                    rw [s9, e9, e10]
                    omega
                  · rw [if_neg c9]
                    by_cases c10 : day < 304
                    · rw [if_pos c10]
                      refine ⟨_, _, rfl, ?_⟩
                      rw [s10, e10, e11]
                      omega
                    · rw [if_neg c10]
                      by_cases c11 : day < 334
                      · rw [if_pos c11]
                        refine ⟨_, _, rfl, ?_⟩
                        rw [s11, e11, e12]
                        omega
                      · rw [if_neg c11]
                        refine ⟨_, _, rfl, ?_⟩
                        rw [s12, e12, e13]
                        omega

theorem monthDay_spec (leap : Bool) (yday : Int) (h0 : 0 ≤ yday)
    (h1 : yday < (if leap = true then 366 else 365)) :
    ∃ m d, monthDay leap yday = (m, d) ∧ 1 ≤ m ∧ m ≤ 12 ∧ 1 ≤ d ∧
      d ≤ (if m = 2 ∧ leap = true then 29 else daysBefore (m + 1) - daysBefore m) ∧
      daysBefore m + (if leap = true ∧ 3 ≤ m then 1 else 0) + (d - 1) = yday := by
  cases leap
  · obtain ⟨m, d, hmd, hm1, hm2, hd1, hd2, hs, _⟩ := monthDayCommon_spec yday h0 (by simpa using h1)
    refine ⟨m, d, by simpa [monthDay] using hmd, hm1, hm2, hd1, ?_, ?_⟩
    · simpa using hd2
    · simpa using hs
  · have h1' : yday < 366 := by simpa using h1
    by_cases h59 : yday = 59
    · refine ⟨2, 29, by simp [monthDay, h59], ?_⟩
      obtain ⟨e1, e2, e3, e4, e5, e6, e7, e8, e9, e10, e11, e12, e13⟩ := daysBefore_vals
      norm_num [e2, h59]
    · by_cases hgt : yday > 59
      · obtain ⟨m, d, hmd, hm1, hm2, hd1, hd2, hs, hm⟩ :=
          monthDayCommon_spec (yday - 1) (by omega) (by omega)
        refine ⟨m, d, by simp [monthDay, h59, hgt, hmd], hm1, hm2, hd1, ?_, ?_⟩
        · have : ¬ m = 2 := by omega
          simpa [this] using hd2
        · have : 3 ≤ m := by omega
          simp [this]; omega
      · obtain ⟨m, d, hmd, hm1, hm2, hd1, hd2, hs, hm⟩ :=
          monthDayCommon_spec yday (by omega) (by omega)
        refine ⟨m, d, by simp [monthDay, h59, hgt, hmd], hm1, hm2, hd1, ?_, ?_⟩
        · have hm' : m ≤ 2 := hm.2 (by omega)
          split_ifs
          · have : m = 2 := by tauto
            subst this
            obtain ⟨e1, e2, e3, e4, e5, e6, e7, e8, e9, e10, e11, e12, e13⟩ := daysBefore_vals
            norm_num [e2, e3] at hd2 ⊢; omega
          · exact hd2
        · have hm' : ¬ 3 ≤ m := by have := hm.2 (by omega); omega
          simp [hm']; omega


/-- The civil date of a day number is a valid date, and `daysFromCivil` maps
it back to the day number. -/
theorem civilFromDays_spec (z : Int) :
    1 ≤ (civilFromDays z).2.1 ∧ (civilFromDays z).2.1 ≤ 12 ∧ 1 ≤ (civilFromDays z).2.2 ∧
      (civilFromDays z).2.2 ≤ daysIn (civilFromDays z).2.1 (civilFromDays z).1 ∧
      daysFromCivil (civilFromDays z).1 (civilFromDays z).2.1 (civilFromDays z).2.2 = z := by
  obtain ⟨ha, hb, hc, hd⟩ := year_aux (z + 719162) _ _ rfl rfl
  have hy : (yearOfDays z).1 = 400 * ((z + 719162) / 146097)
      + 100 * min ((z + 719162) % 146097 / 36524) 3
      + 4 * (((z + 719162) % 146097 - 36524 * min ((z + 719162) % 146097 / 36524) 3) / 1461)
      + min (((z + 719162) % 146097 - 36524 * min ((z + 719162) % 146097 / 36524) 3)
          % 1461 / 365) 3 + 1 := rfl
  have hyd : (yearOfDays z).2 =
      ((z + 719162) % 146097 - 36524 * min ((z + 719162) % 146097 / 36524) 3) % 1461
        - 365 * min (((z + 719162) % 146097
            - 36524 * min ((z + 719162) % 146097 / 36524) 3) % 1461 / 365) 3 := rfl
  rw [← hy, ← hyd] at ha hc hd
  rw [← hyd] at hb
  have hlt : (yearOfDays z).2 < (if isLeap (yearOfDays z).1 = true then 366 else 365) := by
    cases hl : isLeap (yearOfDays z).1 with
    | true => simpa using hc hl
    | false => simpa using hd hl
  obtain ⟨m, d, hmd, hm1, hm2, hd1, hd2, hs⟩ :=
    monthDay_spec (isLeap (yearOfDays z).1) (yearOfDays z).2 hb hlt
  have e1 : (civilFromDays z).1 = (yearOfDays z).1 := rfl
  have e2 : (civilFromDays z).2.1 = m := by
    show (monthDay (isLeap (yearOfDays z).1) (yearOfDays z).2).1 = m
    rw [hmd]
  have e3 : (civilFromDays z).2.2 = d := by
    show (monthDay (isLeap (yearOfDays z).1) (yearOfDays z).2).2 = d
    rw [hmd]
  rw [e1, e2, e3]
  refine ⟨hm1, hm2, hd1, ?_, ?_⟩
  · unfold daysIn
    exact hd2
  · unfold daysFromCivil
    omega

end GoTime

end Tattletail
namespace Tattletail

namespace GoTime

/-! ## Digits -/

/-- The ten digit characters are digits for `isDigit`, with their value. -/
theorem digit_facts : ∀ k, k < 10 →
    isDigit (Char.ofNat (48 + k)) = true ∧ digitVal (Char.ofNat (48 + k)) = (k : Int) := by
  decide

theorem isDigit_digitChar (n : Nat) : isDigit (digitChar n) = true :=
  (digit_facts (n % 10) (Nat.mod_lt n (by decide))).1

theorem digitVal_digitChar (n : Nat) : digitVal (digitChar n) = ((n % 10 : Nat) : Int) :=
  (digit_facts (n % 10) (Nat.mod_lt n (by decide))).2

/-- A number from 0 to 99 is printed by `appendInt` with width 2 as its two digits. -/
theorem appendInt_two (x : Int) (h0 : 0 ≤ x) (h1 : x < 100) :
    appendInt x 2 = [digitChar (x.natAbs / 10), digitChar x.natAbs] := by
  have h2 : x.natAbs / 10 ^ 2 = 0 := by omega
  have h3 : ¬ x < 0 := by omega
  simp only [appendInt, h2, h3, if_true, if_false, lastDigits, List.nil_append,
    List.append_nil, List.singleton_append]

/-- A number from 0 to 9999 is printed by `appendInt` with width 4 as its four digits. -/
theorem appendInt_four (x : Int) (h0 : 0 ≤ x) (h1 : x < 10000) :
    appendInt x 4 = [digitChar (x.natAbs / 10 / 10 / 10), digitChar (x.natAbs / 10 / 10),
      digitChar (x.natAbs / 10), digitChar x.natAbs] := by
  have h2 : x.natAbs / 10 ^ 4 = 0 := by omega
  have h3 : ¬ x < 0 := by omega
  simp only [appendInt, h2, h3, if_true, if_false, lastDigits, List.nil_append,
    List.append_nil, List.singleton_append, List.cons_append]

/-- The function `getnum` reads back the two digits printed by `appendInt`. -/
theorem getnum_appendInt (x : Int) (h0 : 0 ≤ x) (h1 : x < 100) (rest : List Char)
    (fixed : Bool) : getnum (appendInt x 2 ++ rest) fixed = some (x, rest) := by
  rw [appendInt_two x h0 h1]
  simp only [List.cons_append, List.nil_append, getnum, isDigit_digitChar, if_true,
    digitVal_digitChar, Option.some.injEq, Prod.mk.injEq, and_true]
  omega

/-- The year element reads back the four digits printed by `appendInt`. -/
theorem getyear_appendInt (x : Int) (h0 : 0 ≤ x) (h1 : x < 10000) (rest : List Char) :
    getyear (appendInt x 4 ++ rest) = some (x, rest) := by
  rw [appendInt_four x h0 h1]
  simp only [List.cons_append, List.nil_append, getyear, isDigit_digitChar, and_self, if_true,
    digitVal_digitChar, Option.some.injEq, Prod.mk.injEq, and_true]
  omega

end GoTime

end Tattletail
namespace Tattletail

namespace GoTime

/-! ## The elements of the layout -/

/-- A literal of the layout followed by a two-digit element printed by
`appendInt` is read back. -/
theorem read_two (c : Char) (x : Int) (h0 : 0 ≤ x) (h1 : x < 100) (rest : List Char)
    (fixed : Bool) :
    (skip c (c :: (appendInt x 2 ++ rest))).bind (fun s => getnum s fixed) = some (x, rest) := by
  simp only [skip, if_true, Option.some_bind]
  exact getnum_appendInt x h0 h1 rest fixed

/-- No fractional second is read from a text that starts with neither a period
nor a comma. -/
theorem getfrac_of_head (c : Char) (rest : List Char) (h1 : c ≠ '.') (h2 : c ≠ ',') :
    getfrac (c :: rest) = (0, c :: rest) := by
  cases rest with
  | nil => rfl
  | cons c1 rest1 =>
    simp only [getfrac, h1, h2, false_or, false_and, if_false]

/-- The zone element printed for an offset of whole minutes, below 25 hours. -/
theorem formatZone_eq (q : Int) (hq : q ≠ 0) (hlo : -1500 < q) (hhi : q < 1500) :
    formatZone (60 * q) =
      [if q < 0 then '-' else '+', digitChar (q.natAbs / 60 / 10), digitChar (q.natAbs / 60), ':',
       digitChar (q.natAbs % 60 / 10), digitChar (q.natAbs % 60)] := by
  have hne : (60 : Int) * q ≠ 0 := by omega
  have ht : Int.tdiv (60 * q) 60 = q := Int.mul_tdiv_cancel_left q (by decide)
  have ha : appendInt ((q.natAbs : Int) / 60) 2 =
      [digitChar (q.natAbs / 60 / 10), digitChar (q.natAbs / 60)] := by
    rw [appendInt_two _ (by omega) (by omega)]
    have e : ((q.natAbs : Int) / 60).natAbs = q.natAbs / 60 := by omega
    rw [e]
  have hb : appendInt ((q.natAbs : Int) % 60) 2 =
      [digitChar (q.natAbs % 60 / 10), digitChar (q.natAbs % 60)] := by
    rw [appendInt_two _ (by omega) (by omega)]
    have e : ((q.natAbs : Int) % 60).natAbs = q.natAbs % 60 := by omega
    rw [e]
  unfold formatZone
  rw [if_neg hne]
  simp only [ht]
  rw [ha, hb]
  by_cases hneg : q < 0
  · simp only [hneg, if_true, List.cons_append, List.nil_append]
  · simp only [hneg, if_false, List.cons_append, List.nil_append]

/-- The zone element of the layout reads back an offset of whole minutes,
below 25 hours. -/
theorem getzone_formatZone (off : Int) (hmin : off % 60 = 0) (hlo : -90000 < off)
    (hhi : off < 90000) : getzone (formatZone off) = some off := by
  by_cases h0 : off = 0
  · subst h0
    rfl
  · obtain ⟨q, rfl⟩ : ∃ q, off = 60 * q := ⟨off / 60, by omega⟩
    have hq : q ≠ 0 := by omega
    rw [formatZone_eq q hq (by omega) (by omega)]
    have g1 : getnum [digitChar (q.natAbs / 60 / 10), digitChar (q.natAbs / 60)] true =
        some (((q.natAbs / 60 : Nat) : Int), []) := by
      have := getnum_appendInt ((q.natAbs / 60 : Nat) : Int) (by omega) (by omega) [] true
      rw [appendInt_two _ (by omega) (by omega)] at this
      simpa only [Int.natAbs_ofNat, List.append_nil] using this
    have g2 : getnum [digitChar (q.natAbs % 60 / 10), digitChar (q.natAbs % 60)] true =
        some (((q.natAbs % 60 : Nat) : Int), []) := by
      have := getnum_appendInt ((q.natAbs % 60 : Nat) : Int) (by omega) (by omega) [] true
      rw [appendInt_two _ (by omega) (by omega)] at this
      simpa only [Int.natAbs_ofNat, List.append_nil] using this
    have hr : ((q.natAbs / 60 : Nat) : Int) ≤ 24 ∧ ((q.natAbs % 60 : Nat) : Int) ≤ 60 := by
      omega
    unfold getzone
    simp only [if_true, g1, g2, hr, and_self]
    by_cases hneg : q < 0
    · have e1 : ¬ ('-' = '+') := by decide
      simp only [hneg, if_true, e1, if_false, Option.some.injEq]
      omega
    · simp only [hneg, if_false, if_true, Option.some.injEq]
      omega

/-- No fractional second is read from a zone element. -/
theorem getfrac_formatZone (off : Int) (hmin : off % 60 = 0) (hlo : -90000 < off)
    (hhi : off < 90000) : getfrac (formatZone off) = (0, formatZone off) := by
  by_cases h0 : off = 0
  · subst h0
    rfl
  · obtain ⟨q, rfl⟩ : ∃ q, off = 60 * q := ⟨off / 60, by omega⟩
    rw [formatZone_eq q (by omega) (by omega) (by omega)]
    by_cases hneg : q < 0
    · simp only [hneg, if_true]
      exact getfrac_of_head _ _ (by decide) (by decide)
    · simp only [hneg, if_false]
      exact getfrac_of_head _ _ (by decide) (by decide)

end GoTime

end Tattletail
namespace Tattletail

namespace GoTime

/-! ## Reading back a formatted time -/

/-- The fields read from a text in the layout whose elements were printed by
`appendInt` and whose zone element reads as `off`. -/
theorem parseFields_layout (y mo d h mi s off : Int) (zone : List Char)
    (hy0 : 0 ≤ y) (hy1 : y < 10000) (hmo0 : 0 ≤ mo) (hmo1 : mo < 100)
    (hd0 : 0 ≤ d) (hd1 : d < 100) (hh0 : 0 ≤ h) (hh1 : h < 100)
    (hmi0 : 0 ≤ mi) (hmi1 : mi < 100) (hs0 : 0 ≤ s) (hs1 : s < 100)
    (hfrac : getfrac zone = (0, zone)) (hzone : getzone zone = some off) :
    parseFields (appendInt y 4 ++ ['-'] ++ appendInt mo 2 ++ ['-'] ++ appendInt d 2 ++ ['T'] ++
        appendInt h 2 ++ [':'] ++ appendInt mi 2 ++ [':'] ++ appendInt s 2 ++ zone) =
      some { year := y, month := mo, day := d, hour := h, min := mi, sec := s, nsec := 0,
             zoneOffset := off } := by
  simp only [List.append_assoc, List.singleton_append, List.cons_append, List.nil_append]
  unfold parseFields
  rw [getyear_appendInt y hy0 hy1]
  simp only
  rw [read_two '-' mo hmo0 hmo1]
  simp only
  rw [read_two '-' d hd0 hd1]
  simp only
  rw [read_two 'T' h hh0 hh1]
  simp only
  rw [read_two ':' mi hmi0 hmi1]
  simp only
  rw [read_two ':' s hs0 hs1]
  simp only
  rw [hfrac]
  simp only
  rw [hzone]

/-- A month has at most 31 days. -/
theorem daysIn_le (month year : Int) (h1 : 1 ≤ month) (h2 : month ≤ 12) :
    daysIn month year ≤ 31 := by
  obtain ⟨e1, e2, e3, e4, e5, e6, e7, e8, e9, e10, e11, e12, e13⟩ := daysBefore_vals
  obtain rfl | rfl | rfl | rfl | rfl | rfl | rfl | rfl | rfl | rfl | rfl | rfl :
      month = 1 ∨ month = 2 ∨ month = 3 ∨ month = 4 ∨ month = 5 ∨ month = 6 ∨ month = 7 ∨
        month = 8 ∨ month = 9 ∨ month = 10 ∨ month = 11 ∨ month = 12 := by omega
  all_goals (unfold daysIn; split_ifs; norm_num; norm_num [e1, e2, e3, e4, e5, e6, e7, e8, e9, e10, e11, e12, e13])

/-- The year of a day number from 0000-01-01 to 9999-12-31 has four digits. -/
theorem year_range (z : Int) (h0 : -719528 ≤ z) (h1 : z < 2932897) :
    0 ≤ (civilFromDays z).1 ∧ (civilFromDays z).1 ≤ 9999 := by
  obtain ⟨ha, hb, hc, hd⟩ := year_aux (z + 719162) _ _ rfl rfl
  have hy : (civilFromDays z).1 = 400 * ((z + 719162) / 146097)
      + 100 * min ((z + 719162) % 146097 / 36524) 3
      + 4 * (((z + 719162) % 146097 - 36524 * min ((z + 719162) % 146097 / 36524) 3) / 1461)
      + min (((z + 719162) % 146097 - 36524 * min ((z + 719162) % 146097 / 36524) 3)
          % 1461 / 365) 3 + 1 := rfl
  rw [← hy] at ha hc hd
  generalize (civilFromDays z).1 = y at *
  generalize ((z + 719162) % 146097 - 36524 * min ((z + 719162) % 146097 / 36524) 3) % 1461
        - 365 * min (((z + 719162) % 146097
            - 36524 * min ((z + 719162) % 146097 / 36524) 3) % 1461 / 365) 3 = yday at *
  have hlt : yday < 366 := by
    cases hl : isLeap y with
    | true => exact hc hl
    | false => have := hd hl; omega
  unfold daysSinceEpoch at ha
  simp only at ha
  constructor
  · by_contra hneg
    omega
  · by_contra hneg
    omega

end GoTime

end Tattletail
namespace Tattletail

namespace GoTime

/-- C10, as stated, fails: the RFC 3339 layout prints no fractional second, so
the timestamp `2021-01-01T00:00:00.5Z`, rewritten for UTC, reads
`2021-01-01T00:00:00Z`, which parses to an instant half a second earlier.
The layout also drops the seconds of an offset (a local mean time such as
`+09:18:59` is printed `+09:18`, and the text parses to an instant 59 seconds
later), and a local year past 9999 is printed with five digits, which do not
parse. -/
theorem format_drops_fractional_second :
    parse "2021-01-01T00:00:00.5Z" = some { sec := 1609459200, nsec := 500000000 } ∧
    format { sec := 1609459200, nsec := 500000000 } UTC = "2021-01-01T00:00:00Z" ∧
    parse (format { sec := 1609459200, nsec := 500000000 } UTC) =
      some { sec := 1609459200, nsec := 0 } ∧
    ({ sec := 1609459200, nsec := 0 } : Time) ≠ { sec := 1609459200, nsec := 500000000 } ∧
    format { sec := 0, nsec := 0 } (FixedZone "LMT" 33539) = "1970-01-01T09:18:59+09:18" ∧
    parse (format { sec := 0, nsec := 0 } (FixedZone "LMT" 33539)) =
      some { sec := 59, nsec := 0 } ∧
    parse "9999-12-31T23:59:59Z" = some { sec := 253402300799, nsec := 0 } ∧
    format { sec := 253402300799, nsec := 0 } (FixedZone "Asia/Tokyo" 32400) =
      "10000-01-01T08:59:59+09:00" ∧
    parse (format { sec := 253402300799, nsec := 0 } (FixedZone "Asia/Tokyo" 32400)) = none := by
  refine ⟨by decide, by decide, by decide, by decide, by decide, by decide, by decide,
    by decide, by decide⟩

/-- C10, amended: a time formatted with the RFC 3339 layout in a location
parses back to the same instant, truncated to the whole second, when the
offset of the location at that time is a whole number of minutes, less than 25
hours from UTC, and the local time lies in the years 0000 to 9999. -/
theorem parse_format_same_second (t : Time) (loc : Location)
    (hmin : loc.offset t.sec % 60 = 0)
    (hlo : -90000 < loc.offset t.sec) (hhi : loc.offset t.sec < 90000)
    (h0 : -62167219200 ≤ t.sec + loc.offset t.sec)
    (h1 : t.sec + loc.offset t.sec < 253402300800) :
    parse (format t loc) = some { sec := t.sec, nsec := 0 } := by
  obtain ⟨hm1, hm2, hd1, hd2, hrt⟩ := civilFromDays_spec ((t.sec + loc.offset t.sec) / 86400)
  obtain ⟨hy0, hy1⟩ := year_range ((t.sec + loc.offset t.sec) / 86400) (by omega) (by omega)
  have hdin := daysIn_le _ (civilFromDays ((t.sec + loc.offset t.sec) / 86400)).1 hm1 hm2
  have key := parseFields_layout
    (civilFromDays ((t.sec + loc.offset t.sec) / 86400)).1
    (civilFromDays ((t.sec + loc.offset t.sec) / 86400)).2.1
    (civilFromDays ((t.sec + loc.offset t.sec) / 86400)).2.2
    ((t.sec + loc.offset t.sec) % 86400 / 3600)
    ((t.sec + loc.offset t.sec) % 86400 % 3600 / 60)
    ((t.sec + loc.offset t.sec) % 86400 % 60)
    (loc.offset t.sec) (formatZone (loc.offset t.sec))
    hy0 (by omega) (by omega) (by omega) (by omega) (by omega) (by omega) (by omega)
    (by omega) (by omega) (by omega) (by omega)
    (getfrac_formatZone _ hmin hlo hhi) (getzone_formatZone _ hmin hlo hhi)
  unfold parse format
  simp only [String.toList]
  rw [key]
  have hv : Fields.valid
      { year := (civilFromDays ((t.sec + loc.offset t.sec) / 86400)).1,
        month := (civilFromDays ((t.sec + loc.offset t.sec) / 86400)).2.1,
        day := (civilFromDays ((t.sec + loc.offset t.sec) / 86400)).2.2,
        hour := (t.sec + loc.offset t.sec) % 86400 / 3600,
        min := (t.sec + loc.offset t.sec) % 86400 % 3600 / 60,
        sec := (t.sec + loc.offset t.sec) % 86400 % 60,
        nsec := 0, zoneOffset := loc.offset t.sec } = true := by
    simp only [Fields.valid, Bool.and_eq_true, decide_eq_true_eq]
    refine ⟨⟨⟨⟨⟨⟨hm1, hm2⟩, hd1⟩, hd2⟩, ?_⟩, ?_⟩, ?_⟩ <;> omega
  simp only [hv, if_true, Fields.toTime, Option.some.injEq, Time.mk.injEq, and_true]
  rw [hrt]
  omega

/-- C10, amended, on a timestamp with a fractional second and an offset: read
in `Asia/Tokyo`, the instant of `2021-06-30T23:59:59.25-02:30` is written as a
text that parses back to its whole second. -/
theorem parse_format_same_second_witness :
    parse "2021-06-30T23:59:59.25-02:30" = some { sec := 1625106599, nsec := 250000000 } ∧
    format { sec := 1625106599, nsec := 250000000 } (FixedZone "Asia/Tokyo" 32400) =
      "2021-07-01T11:29:59+09:00" ∧
    parse (format { sec := 1625106599, nsec := 250000000 } (FixedZone "Asia/Tokyo" 32400)) =
      some { sec := 1625106599, nsec := 0 } :=
  ⟨by decide, by decide,
   parse_format_same_second { sec := 1625106599, nsec := 250000000 }
     (FixedZone "Asia/Tokyo" 32400) (by decide) (by decide) (by decide) (by decide)
     (by decide)⟩

end GoTime

end Tattletail
